import Mathlib

/-!
Verification development for the krilla-based PDF exporter
(`crates/typst-pdf/src/krilla.rs`): a shallow embedding of the frame
traversal, its transform/state stack, the drawing handlers and the page
driver, together with proofs of the specification's quantified invariants.

Scalar quantities (`Abs`, `Em`, `f32` after `to_f32`) are modelled as `ℤ`;
the conversions `to_f32`/`get` are the identity under this modelling. The
exporter only ever adds, multiplies, negates and compares scalars, so any
linear-ordered commutative ring models them faithfully; `ℤ` keeps every
definition kernel-computable, which the concrete evaluations below use.
The krilla surface backend is opaque in the source; we model it as the
ordered trace of calls (`Event` list) the exporter makes against it.
-/

namespace TypstPdf

/-- Modelled from the spec: typst_library's 2D affine `Transform`
(not under `src/`); fields as in the document model (`sx ky kx sy tx ty`). -/
structure Transform where
  sx : ℤ
  ky : ℤ
  kx : ℤ
  sy : ℤ
  tx : ℤ
  ty : ℤ
deriving DecidableEq

/-- The identity transform. -/
def Transform.identity : Transform := ⟨1, 0, 0, 1, 0, 0⟩

/-- Modelled from the spec: affine composition, `prev` applied first
(the "pre-concatenation in the order used by the document model"). -/
def Transform.pre_concat (self prev : Transform) : Transform :=
  { sx := self.sx * prev.sx + self.kx * prev.ky
    ky := self.ky * prev.sx + self.sy * prev.ky
    kx := self.sx * prev.kx + self.kx * prev.sy
    sy := self.ky * prev.kx + self.sy * prev.sy
    tx := self.sx * prev.tx + self.kx * prev.ty + self.tx
    ty := self.ky * prev.tx + self.sy * prev.ty + self.ty }

/-- Modelled from the spec: a pure translation. -/
def Transform.translate (x y : ℤ) : Transform := ⟨1, 0, 0, 1, x, y⟩

/-- Modelled from the spec: a pure scale (krilla's `Transform::from_scale`). -/
def Transform.scale (sx sy : ℤ) : Transform := ⟨sx, 0, 0, sy, 0, 0⟩

/-- A point in the document model. -/
structure Point where
  x : ℤ
  y : ℤ
deriving DecidableEq

/-- A size in the document model (`Size = Axes<Abs>`). -/
structure Size where
  x : ℤ
  y : ℤ
deriving DecidableEq

def Size.zero : Size := ⟨0, 0⟩

def Point.zero : Point := ⟨0, 0⟩

/-- Modelled from the spec: applying an affine transform to a point. -/
def Point.transform (p : Point) (t : Transform) : Point :=
  ⟨t.sx * p.x + t.kx * p.y + t.tx, t.ky * p.x + t.sy * p.y + t.ty⟩

/-- A document paint; its structure (solid/gradient/pattern) is opaque to
every claim proved here, so it is collapsed to a tag. -/
abbrev Paint := Nat

/-- The document fill rule. -/
inductive FillRule where
  | nonZero
  | evenOdd
deriving DecidableEq

/-- A fixed stroke; styling other than the thickness is opaque to the
claims and collapsed into a tag. -/
structure FixedStroke where
  thickness : ℤ
  style : Nat
deriving DecidableEq

/-- Identity key of a document font. `ok` models whether
`krilla::font::Font::new` accepts this font's raw bytes. -/
structure FontKey where
  id : Nat
  ok : Bool
deriving DecidableEq

/-- Identity key of a raster image. `ok` models whether decoding its data
by format tag succeeds. -/
structure RasterKey where
  id : Nat
  ok : Bool
deriving DecidableEq

/-- A shaped glyph of a text run (`typst_library::text::Glyph`). -/
structure Glyph where
  id : Nat
  x_advance : ℤ
  x_offset : ℤ
  range_start : Nat
  range_end : Nat
deriving DecidableEq

/-- A text run (the fields of `TextItem` consumed by `handle_text`). -/
structure TextItem where
  font : FontKey
  size : ℤ
  glyphs : List Glyph
  text : String
  fill : Paint
  stroke : Option FixedStroke
deriving DecidableEq

/-- A path segment of the document model. -/
inductive PathSeg where
  | moveTo (p : Point)
  | lineTo (p : Point)
  | cubicTo (p1 p2 p3 : Point)
  | closePath
deriving DecidableEq

/-- A document path (`Path(pub Vec<PathItem>)`). -/
structure Path where
  segs : List PathSeg
deriving DecidableEq

/-- Shape geometry. -/
inductive Geometry where
  | line (l : Point)
  | rect (s : Size)
  | path (p : Path)
deriving DecidableEq

/-- A shape item. -/
structure Shape where
  geometry : Geometry
  fill : Option Paint
  fill_rule : FillRule
  stroke : Option FixedStroke
deriving DecidableEq

/-- An image: either raster data (decoded via the cache) or a parsed SVG
tree handed through as-is. `flatten_text` is the source document request. -/
inductive Image where
  | raster (key : RasterKey)
  | svg (tree : Nat) (flatten_text : Bool)
deriving DecidableEq

/-- A link destination. For `position`, `page` is the 1-based page number
(`NonZeroUsize` in the document model). -/
inductive Destination where
  | url (u : String)
  | position (page : Nat) (point : Point)
  | location (loc : Nat)
deriving DecidableEq

/-- Frame kind: a hard frame establishes a new container. -/
inductive FrameKind where
  | soft
  | hard
deriving DecidableEq

def FrameKind.is_hard : FrameKind → Bool
  | .soft => false
  | .hard => true

mutual

/-- A laid-out frame: kind, size, and positioned items. -/
inductive Frame : Type where
  | mk : FrameKind → Size → ItemList → Frame
deriving DecidableEq

/-- The ordered `(Point, FrameItem)` list of a frame, as a bespoke list so
that mutual structural recursion stays simple. -/
inductive ItemList : Type where
  | nil : ItemList
  | cons : Point → FrameItem → ItemList → ItemList
deriving DecidableEq

/-- A frame item, one constructor per `FrameItem` variant. -/
inductive FrameItem : Type where
  | group : GroupItem → FrameItem
  | text : TextItem → FrameItem
  | shape : Shape → FrameItem
  | image : Image → Size → FrameItem
  | link : Destination → Size → FrameItem
  | tag : FrameItem
deriving DecidableEq

/-- A group item: local transform, optional clip path, child frame. -/
inductive GroupItem : Type where
  | mk : Transform → Option Path → Frame → GroupItem
deriving DecidableEq

end

def Frame.kind : Frame → FrameKind
  | .mk k _ _ => k

def Frame.size : Frame → Size
  | .mk _ s _ => s

def Frame.items : Frame → ItemList
  | .mk _ _ l => l

def GroupItem.transform : GroupItem → Transform
  | .mk t _ _ => t

def GroupItem.clip_path : GroupItem → Option Path
  | .mk _ c _ => c

def GroupItem.frame : GroupItem → Frame
  | .mk _ _ f => f

/-- The traversal state (`State` in the source). -/
structure State where
  transform_chain : Transform
  transform : Transform
  container_transform_chain : Transform
  size : Size
deriving DecidableEq

/-- `State::new`: clean state for a given size; `transform` starts as the
identity. -/
def State.new (size : Size) (transform_chain container_transform_chain : Transform) : State :=
  { transform_chain := transform_chain
    transform := Transform.identity
    container_transform_chain := container_transform_chain
    size := size }

/-- `State::size` (named `size_set` here because `size` is the field). -/
def State.size_set (s : State) (size : Size) : State := { s with size := size }

/-- `State::transform` (named `transform_op` here because `transform` is the
field): pre-concatenate onto both the item transform and the full chain. -/
def State.transform_op (s : State) (t : Transform) : State :=
  { s with
    transform := s.transform.pre_concat t
    transform_chain := s.transform_chain.pre_concat t }

/-- `State::set_container_transform`: freeze the chain as the container
chain. -/
def State.set_container_transform (s : State) : State :=
  { s with container_transform_chain := s.transform_chain }

/-- The read-only projection handed to paint construction
(`State::transforms`). -/
structure Transforms where
  transform_chain_ : Transform
  transform_ : Transform
  container_transform_chain : Transform
  container_size : Size
  size : Size
deriving DecidableEq

def State.transforms (s : State) (size : Size) : Transforms :=
  { transform_chain_ := s.transform_chain
    transform_ := s.transform
    container_transform_chain := s.container_transform_chain
    container_size := s.size
    size := size }

/-- An axis-aligned rectangle of the backend (`tiny-skia`/usvg `Rect`),
kept as left/top/right/bottom. -/
structure KRect where
  left : ℤ
  top : ℤ
  right : ℤ
  bottom : ℤ
deriving DecidableEq

/-- `Rect::from_ltrb`: valid only when left ≤ right and top ≤ bottom
(the backend additionally requires finiteness, automatic over `ℤ`). -/
def rect_from_ltrb (l t r b : ℤ) : Option KRect :=
  if l ≤ r ∧ t ≤ b then some ⟨l, t, r, b⟩ else none

/-- `Rect::from_xywh` = `from_ltrb(x, y, x+w, y+h)`. -/
def rect_from_xywh (x y w h : ℤ) : Option KRect :=
  rect_from_ltrb x y (x + w) (y + h)

/-- `Rect::transform`: the axis-aligned bounding box of the four
transformed corners (always finite over `ℤ`, hence always `some`). -/
def rect_transform (rc : KRect) (ts : Transform) : Option KRect :=
  let p0 := Point.transform ⟨rc.left, rc.top⟩ ts
  let p1 := Point.transform ⟨rc.right, rc.top⟩ ts
  let p2 := Point.transform ⟨rc.left, rc.bottom⟩ ts
  let p3 := Point.transform ⟨rc.right, rc.bottom⟩ ts
  some ⟨min (min (min p0.x p1.x) p2.x) p3.x,
        min (min (min p0.y p1.y) p2.y) p3.y,
        max (max (max p0.x p1.x) p2.x) p3.x,
        max (max (max p0.y p1.y) p2.y) p3.y⟩

/-- A backend path-builder verb. -/
inductive Verb where
  | move (p : Point)
  | line (p : Point)
  | cubic (p1 p2 p3 : Point)
  | close
  | rect (r : KRect)
deriving DecidableEq

/-- `PathBuilder::finish`: an empty builder yields no path. -/
def builder_finish (vs : List Verb) : Option (List Verb) :=
  if vs.isEmpty then none else some vs

/-- krilla `Path::transform`: records the transform applied to the path's
coordinates; always succeeds over `ℤ` (the backend only rejects
non-finite transforms). -/
def path_transform_k (t : Transform) (vs : List Verb) : Option (List Verb × Transform) :=
  some (vs, t)

/-- The backend fill rule (krilla). -/
inductive KFillRule where
  | k_non_zero
  | k_even_odd
deriving DecidableEq

/-- `GlyphUnits` as passed to the backend; the exporter always passes
`Normalized`. -/
inductive GlyphUnitsK where
  | normalized
deriving DecidableEq

/-- The backend glyph record exposed by the `PdfGlyph` wrapper. -/
structure KGlyph where
  gid : Nat
  range_start : Nat
  range_end : Nat
  x_advance : ℤ
  x_offset : ℤ
  y_advance : ℤ
  y_offset : ℤ
deriving DecidableEq

/-- The `PdfGlyph` wrapper: projects a document glyph into the backend
glyph interface, with `y_advance = 0` and `y_offset = 0`. -/
def pdfGlyph (g : Glyph) : KGlyph :=
  ⟨g.id, g.range_start, g.range_end, g.x_advance, g.x_offset, 0, 0⟩

/-- A backend fill: `paint::fill` is an external converter, so we record
the arguments the exporter passes to it. -/
structure KFill where
  paint : Paint
  rule : FillRule
  on_text : Bool
  transforms : Transforms
deriving DecidableEq

/-- A backend stroke: `paint::stroke` is an external converter, so we
record the arguments the exporter passes to it. -/
structure KStroke where
  stroke : FixedStroke
  on_text : Bool
  transforms : Transforms
deriving DecidableEq

/-- One call against the opaque surface backend or resource constructors,
in emission order. -/
inductive Event where
  | push_transform (t : Transform)
  | push_clip_path (verbs : List Verb) (path_t : Transform) (rule : KFillRule)
  | pop
  | fill_path (verbs : List Verb) (fill : KFill)
  | stroke_path (verbs : List Verb) (stroke : KStroke)
  | fill_glyphs (origin : Point) (fill : KFill) (glyphs : List KGlyph)
      (font : FontKey) (text : String) (size : ℤ) (units : GlyphUnitsK) (flag : Bool)
  | stroke_glyphs (origin : Point) (stroke : KStroke) (glyphs : List KGlyph)
      (font : FontKey) (text : String) (size : ℤ) (units : GlyphUnitsK) (flag : Bool)
  | draw_image (img : RasterKey) (size : Size)
  | draw_svg (tree : Nat) (size : Size) (embed_text : Bool)
  | font_new (f : FontKey)
  | decode_raster (k : RasterKey)
deriving DecidableEq

/-- A link annotation target. -/
inductive Target where
  | action_link (url : String)
  | destination_xyz (page : Nat) (point : Point)
deriving DecidableEq

/-- A page annotation (a link rectangle with its target). -/
structure Annot where
  rect : KRect
  target : Target
deriving DecidableEq

/-- Fatal errors: the source `unwrap`s in these places, aborting the
whole export. -/
inductive Err where
  | font_error (f : FontKey)
  | image_error (k : RasterKey)
  | rect_error
  | finish_error
deriving DecidableEq

/-- `FrameContext`: the state stack (head = top) plus the per-page
annotation buffer. -/
structure FrameContext where
  states : List State
  annotations : List Annot
deriving DecidableEq

/-- Fallback state for the (unreachable, the source `unwrap`s) empty-stack
case of `state()`. -/
def defaultState : State := State.new Size.zero Transform.identity Transform.identity

/-- `FrameContext::new`: a single state whose chains are the identity. -/
def FrameContext.new (size : Size) : FrameContext :=
  { states := [State.new size Transform.identity Transform.identity]
    annotations := [] }

/-- `FrameContext::state`: the top of the stack. -/
def FrameContext.state (fc : FrameContext) : State := fc.states.headD defaultState

/-- `FrameContext::push`: duplicate the top state. -/
def FrameContext.push (fc : FrameContext) : FrameContext :=
  { fc with states := fc.state :: fc.states }

/-- `FrameContext::pop`. -/
def FrameContext.pop (fc : FrameContext) : FrameContext :=
  { fc with states := fc.states.tail }

/-- `FrameContext::state_mut` followed by a mutation of the top state. -/
def FrameContext.modifyTop (fc : FrameContext) (f : State → State) : FrameContext :=
  { fc with states := f fc.state :: fc.states.tail }

/-- `GlobalContext`: the per-document font cache, plus (modelled from the
spec, see `raster_or_decode`) the per-document raster decode cache. -/
structure GlobalContext where
  fonts : List FontKey
  images : List RasterKey
deriving DecidableEq

/-- `GlobalContext::new`: empty caches. -/
def GlobalContext.new : GlobalContext := ⟨[], []⟩

/-- Result of one handler or traversal step: the contexts after the step
and the trace of backend calls the step emitted, in order. -/
structure StepRes where
  fc : FrameContext
  gc : GlobalContext
  evs : List Event
deriving DecidableEq

/-- `convert_path`: replay the document path into builder verbs. -/
def convert_path (p : Path) : List Verb :=
  p.segs.map fun s =>
    match s with
    | .moveTo q => .move q
    | .lineTo q => .line q
    | .cubicTo a b c => .cubic a b c
    | .closePath => .close

/-- Rust `f32::signum` restricted to the values arising here: `1` for
non-negative input (including `0`), `-1` for negative input. -/
def qSignum (q : ℤ) : ℤ := if q < 0 then -1 else 1

/-- The builder verbs `handle_shape` produces for a geometry: a line is
moveTo/lineTo, a rect goes through `Rect::from_xywh` (with the
reflective-scale trick when a dimension is negative), a path is replayed. -/
def shapeVerbs (g : Geometry) : List Verb :=
  match g with
  | .line l => [.move Point.zero, .line l]
  | .rect size =>
    let w := size.x
    let h := size.y
    let rc : Option KRect :=
      if w < 0 ∨ h < 0 then
        (rect_from_xywh 0 0 |w| |h|).bind fun r =>
          rect_transform r (Transform.scale (qSignum w) (qSignum h))
      else
        rect_from_xywh 0 0 w h
    match rc with
    | some r => [.rect r]
    | none => []
  | .path p => convert_path p

/-- All control points of a path, for the modelled bounding box. -/
def pathPoints (p : Path) : List Point :=
  p.segs.flatMap fun s =>
    match s with
    | .moveTo q => [q]
    | .lineTo q => [q]
    | .cubicTo a b c => [a, b, c]
    | .closePath => []

/-- Modelled from the spec: `Geometry::bbox_size` lives in typst_library
(not under `src/`). Line and Rect per that crate; the Path case (its
curve-aware bounds) is modelled as the bounding box of the control
points. No claim depends on the Path case's value. -/
def Geometry.bbox_size : Geometry → Size
  | .line l => ⟨l.x, l.y⟩
  | .rect s => s
  | .path p =>
    match pathPoints p with
    | [] => Size.zero
    | q :: qs =>
      let xs := (q :: qs).map Point.x
      let ys := (q :: qs).map Point.y
      ⟨xs.foldl max q.x - xs.foldl min q.x, ys.foldl max q.y - ys.foldl min q.y⟩

/-- Modelled from the spec: `Geometry::filled` from typst_library (not
under `src/`): "synthesize a filled `Rect(frame.size())` shape", with the
document model's default fill rule (non-zero) and no stroke. -/
def Geometry.filled (g : Geometry) (p : Paint) : Shape :=
  { geometry := g, fill := some p, fill_rule := .nonZero, stroke := none }

/-- The font cache step of `handle_text`
(`gc.fonts.entry(..).or_insert_with(|| Font::new(..).unwrap())`): a hit
returns the cache unchanged; a miss constructs the backend font (fatal on
rejection) and stores it. -/
def font_intern (gc : GlobalContext) (f : FontKey) : Except Err (GlobalContext × List Event) :=
  if f ∈ gc.fonts then .ok (gc, [])
  else if f.ok then .ok ({ gc with fonts := gc.fonts ++ [f] }, [.font_new f])
  else .error (.font_error f)

/-- Modelled from the spec: `crate::image::raster` is not under `src/`;
per §4.2 it is the per-document memoized `raster_or_decode(raster)`:
decode by format tag and memoize, decode failure fatal. -/
def raster_or_decode (gc : GlobalContext) (k : RasterKey) : Except Err (GlobalContext × List Event) :=
  if k ∈ gc.images then .ok (gc, [])
  else if k.ok then .ok ({ gc with images := gc.images ++ [k] }, [.decode_raster k])
  else .error (.image_error k)

/-- The `stroke_glyphs` call of `handle_text`: emitted whenever the text
item carries a stroke. -/
def textStrokeEvs (t : TextItem) (st : State) : List Event :=
  match t.stroke with
  | some s =>
    [.stroke_glyphs Point.zero ⟨s, true, st.transforms Size.zero⟩ (t.glyphs.map pdfGlyph)
      t.font t.text t.size .normalized true]
  | none => []

/-- `handle_text`: intern the font, build the fill from
`transforms(Size::zero())`, wrap the glyphs, push the item transform,
fill the glyphs (units normalized, origin `(0,0)`), stroke them whenever a
stroke is present, pop. -/
def handle_text (t : TextItem) (fc : FrameContext) (gc : GlobalContext) : Except Err StepRes :=
  match font_intern gc t.font with
  | .error e => .error e
  | .ok (gc2, fontEvs) =>
    .ok ⟨fc, gc2,
      fontEvs ++
      [.push_transform fc.state.transform,
       .fill_glyphs Point.zero ⟨t.fill, .nonZero, true, fc.state.transforms Size.zero⟩
         (t.glyphs.map pdfGlyph) t.font t.text t.size .normalized false] ++
      textStrokeEvs t fc.state ++ [.pop]⟩

/-- The `fill_path` call of `handle_shape`, emitted when a fill is set. -/
def shapeFillEvs (sh : Shape) (st : State) (path : List Verb) : List Event :=
  match sh.fill with
  | some paint =>
    [.fill_path path ⟨paint, sh.fill_rule, false, st.transforms sh.geometry.bbox_size⟩]
  | none => []

/-- The `stroke_path` call of `handle_shape`, emitted only when the
stroke's thickness is positive. -/
def shapeStrokeEvs (sh : Shape) (st : State) (path : List Verb) : List Event :=
  match sh.stroke with
  | some stroke =>
    if 0 < stroke.thickness then
      [.stroke_path path ⟨stroke, false, st.transforms sh.geometry.bbox_size⟩]
    else []
  | none => []

/-- The drawing calls of `handle_shape`: nothing if the built path is
empty, else the fill call then the stroke call. -/
def shapeDrawEvs (sh : Shape) (st : State) : List Event :=
  match builder_finish (shapeVerbs sh.geometry) with
  | none => []
  | some path => shapeFillEvs sh st path ++ shapeStrokeEvs sh st path

/-- `handle_shape`: build the path, push the item transform, fill if a
fill is set, stroke only when the stroke thickness is positive, pop.
An empty builder result draws nothing (but the transform push/pop still
happens, as in the source). -/
def handle_shape (sh : Shape) (fc : FrameContext) (gc : GlobalContext) : StepRes :=
  ⟨fc, gc, [.push_transform fc.state.transform] ++ shapeDrawEvs sh fc.state ++ [.pop]⟩

/-- `handle_image`: push the item transform; rasters resolve through the
decode cache (fatal on failure) and are drawn, SVG trees are handed to the
backend with `embed_text = !flatten_text`; pop. -/
def handle_image (img : Image) (size : Size) (fc : FrameContext) (gc : GlobalContext) :
    Except Err StepRes :=
  let st := fc.state
  match img with
  | .raster k =>
    match raster_or_decode gc k with
    | .error e => .error e
    | .ok (gc2, decEvs) =>
      .ok ⟨fc, gc2, [.push_transform st.transform] ++ decEvs ++ [.draw_image k size, .pop]⟩
  | .svg tree flatten =>
    .ok ⟨fc, gc, [.push_transform st.transform, .draw_svg tree size (!flatten), .pop]⟩

/-- The axis-aligned bounding box of the four corners of a rect of the
link's size at the origin, each mapped through `state.transform` (the
source folds `set_min`/`set_max` over the four corners starting from
`±∞`; over a fixed four-element list that is the four-way min/max,
written directly because `ℤ` has no infinities). -/
def linkRectVal (st : State) (size : Size) : KRect :=
  let p0 := Point.transform Point.zero st.transform
  let p1 := Point.transform ⟨size.x, 0⟩ st.transform
  let p2 := Point.transform ⟨0, size.y⟩ st.transform
  let p3 := Point.transform ⟨size.x, size.y⟩ st.transform
  ⟨min (min (min p0.x p1.x) p2.x) p3.x,
   min (min (min p0.y p1.y) p2.y) p3.y,
   max (max (max p0.x p1.x) p2.x) p3.x,
   max (max (max p0.y p1.y) p2.y) p3.y⟩

/-- `write_link`: compute the bounding box of the transformed link
corners, rebuild it through `Rect::from_ltrb` (whose failure the source
`unwrap`s), build the target, and append the annotation. `Location`
destinations emit nothing. -/
def write_link (fc : FrameContext) (dest : Destination) (size : Size) :
    Except Err FrameContext :=
  match rect_from_ltrb (linkRectVal fc.state size).left (linkRectVal fc.state size).top
      (linkRectVal fc.state size).right (linkRectVal fc.state size).bottom with
  | none => .error .rect_error
  | some rect =>
    match dest with
    | .url u => .ok { fc with annotations := fc.annotations ++ [⟨rect, .action_link u⟩] }
    | .position page point =>
      .ok { fc with annotations := fc.annotations ++ [⟨rect, .destination_xyz (page - 1) point⟩] }
    | .location _ => .ok fc

mutual

/-- `process_frame`: push a cloned state; on a hard frame freeze the
container chain and size; draw the background fill (if any) before the
children; then walk the items; pop on exit. -/
def process_frame (frame : Frame) (fill : Option Paint) (fc : FrameContext)
    (gc : GlobalContext) : Except Err StepRes :=
  match frame with
  | .mk kind size items =>
    let fc1 := fc.push
    let fc2 :=
      if kind.is_hard then
        fc1.modifyTop fun s => (s.set_container_transform).size_set size
      else fc1
    let bg : StepRes :=
      match fill with
      | some f => handle_shape ((Geometry.rect size).filled f) fc2 gc
      | none => ⟨fc2, gc, []⟩
    match process_items items bg.fc bg.gc with
    | .error e => .error e
    | .ok r2 => .ok ⟨r2.fc.pop, r2.gc, bg.evs ++ r2.evs⟩

/-- The item loop of `process_frame`: for each `(point, item)` push a
state, pre-concatenate the translation to the item's point, dispatch,
pop. -/
def process_items (items : ItemList) (fc : FrameContext) (gc : GlobalContext) :
    Except Err StepRes :=
  match items with
  | .nil => .ok ⟨fc, gc, []⟩
  | .cons p item rest =>
    let fc2 := (fc.push).modifyTop fun s => s.transform_op (Transform.translate p.x p.y)
    match handle_item item fc2 gc with
    | .error e => .error e
    | .ok r1 =>
      match process_items rest r1.fc.pop r1.gc with
      | .error e => .error e
      | .ok r2 => .ok ⟨r2.fc, r2.gc, r1.evs ++ r2.evs⟩

/-- The dispatch of `process_frame` on the item kind. -/
def handle_item (item : FrameItem) (fc : FrameContext) (gc : GlobalContext) :
    Except Err StepRes :=
  match item with
  | .group g => handle_group g fc gc
  | .text t => handle_text t fc gc
  | .shape s => .ok (handle_shape s fc gc)
  | .image img size => handle_image img size fc gc
  | .link d s =>
    match write_link fc d s with
    | .error e => .error e
    | .ok fc2 => .ok ⟨fc2, gc, []⟩
  | .tag => .ok ⟨fc, gc, []⟩

/-- `handle_group`: push, apply the group transform, build the optional
clip path (converted, then carrying the accumulated transform), push the
clip on the surface if present, recurse with no background fill, pop the
clip if pushed, pop the state. -/
def handle_group (g : GroupItem) (fc : FrameContext) (gc : GlobalContext) :
    Except Err StepRes :=
  match g with
  | .mk gt clip gframe =>
    let fc2 := (fc.push).modifyTop fun s => s.transform_op gt
    let clip_path : Option (List Verb × Transform) :=
      (clip.bind fun p => builder_finish (convert_path p)).bind
        fun pv => path_transform_k fc2.state.transform pv
    let clipPush : List Event :=
      match clip_path with
      | some (vs, t) => [.push_clip_path vs t .k_non_zero]
      | none => []
    match process_frame gframe none fc2 gc with
    | .error e => .error e
    | .ok r =>
      .ok ⟨r.fc.pop, r.gc, clipPush ++ r.evs ++ (if clip_path.isSome then [.pop] else [])⟩

end

/-- An input page: its frame and the result of `fill_or_transparent()`
(the optional background paint). -/
structure Page where
  frame : Frame
  fill : Option Paint
deriving DecidableEq

/-- An input document. `finish_ok` abstracts whether the opaque backend's
`Document::finish` succeeds (the writer itself is out of scope). -/
structure Doc where
  pages : List Page
  finish_ok : Bool
deriving DecidableEq

/-- What the exporter produced for one page: the drained annotation
buffer and the surface trace. -/
structure PageOut where
  annotations : List Annot
  evs : List Event
deriving DecidableEq

/-- The page loop of `pdf()`: per page a fresh `FrameContext` seeded with
the frame size, `process_frame` with the page's background fill, then the
annotations are drained into the page. The font/image caches thread
through the whole document. -/
def run_pages (pages : List Page) (gc : GlobalContext) :
    Except Err (List PageOut × GlobalContext) :=
  match pages with
  | [] => .ok ([], gc)
  | p :: rest =>
    match process_frame p.frame p.fill (FrameContext.new p.frame.size) gc with
    | .error e => .error e
    | .ok r =>
      match run_pages rest r.gc with
      | .error e => .error e
      | .ok (outs, gc2) => .ok (⟨r.fc.annotations, r.evs⟩ :: outs, gc2)

/-- `pdf()`: run all pages, then `finish(document)`, whose failure is
fatal (`document.finish().unwrap()`). -/
def pdf (doc : Doc) : Except Err (List PageOut) :=
  match run_pages doc.pages GlobalContext.new with
  | .error e => .error e
  | .ok (outs, _) => if doc.finish_ok then .ok outs else .error .finish_error

/-! ## Trace projections -/

/-- The surface's LIFO stack movement of one call: the two pushes grow it,
`pop` shrinks it, everything else leaves it alone. -/
def surfDelta : Event → Int
  | .push_transform _ => 1
  | .push_clip_path _ _ _ => 1
  | .pop => -1
  | _ => 0

/-- Net surface stack movement of a trace. -/
def net : List Event → Int
  | [] => 0
  | e :: es => surfDelta e + net es

/-- Minimum over all prefixes of the running surface stack movement. -/
def minPre : List Event → Int
  | [] => 0
  | e :: es => min 0 (surfDelta e + minPre es)

/-- A trace is balanced when it returns the surface stack to its entry
depth and never pops below it. -/
def Balanced (es : List Event) : Prop := net es = 0 ∧ 0 ≤ minPre es

instance (es : List Event) : Decidable (Balanced es) := by
  unfold Balanced; infer_instance

/-- The values of the `push_transform` calls of a trace, in order. -/
def pushedTransforms (es : List Event) : List Transform :=
  es.filterMap fun e =>
    match e with
    | .push_transform t => some t
    | _ => none

/-- The `Transforms` records the exporter handed to paint construction,
in order (one per fill/stroke call). -/
def paintTransformsOf (es : List Event) : List Transforms :=
  es.filterMap fun e =>
    match e with
    | .fill_path _ f => some f.transforms
    | .stroke_path _ s => some s.transforms
    | .fill_glyphs _ f _ _ _ _ _ _ => some f.transforms
    | .stroke_glyphs _ s _ _ _ _ _ _ => some s.transforms
    | _ => none

/-- The container data (frozen chain and size) of each paint call. -/
def containersOf (es : List Event) : List (Transform × Size) :=
  (paintTransformsOf es).map fun tr => (tr.container_transform_chain, tr.container_size)

/-- Number of `Font::new` constructions for a given font in a trace. -/
def countFontNew (f : FontKey) (es : List Event) : Nat :=
  es.countP fun e => decide (e = .font_new f)

/-- Number of raster decodes for a given image in a trace. -/
def countDecode (k : RasterKey) (es : List Event) : Nat :=
  es.countP fun e => decide (e = .decode_raster k)

/-- Number of `stroke_glyphs` calls in a trace. -/
def countStrokeGlyphs (es : List Event) : Nat :=
  es.countP fun e =>
    match e with
    | .stroke_glyphs _ _ _ _ _ _ _ _ => true
    | _ => false

/-- Number of `stroke_path` calls in a trace. -/
def countStrokePath (es : List Event) : Nat :=
  es.countP fun e =>
    match e with
    | .stroke_path _ _ => true
    | _ => false

/-! ## Document projections -/

mutual

/-- The fonts of all text items of a frame, in traversal order, with
multiplicity. -/
def frameFonts : Frame → List FontKey
  | .mk _ _ items => itemsFonts items

def itemsFonts : ItemList → List FontKey
  | .nil => []
  | .cons _ it rest => itemFonts it ++ itemsFonts rest

def itemFonts : FrameItem → List FontKey
  | .group (.mk _ _ gf) => frameFonts gf
  | .text t => [t.font]
  | .shape _ => []
  | .image _ _ => []
  | .link _ _ => []
  | .tag => []

end

mutual

/-- The raster images of a frame, in traversal order, with multiplicity. -/
def frameRasters : Frame → List RasterKey
  | .mk _ _ items => itemsRasters items

def itemsRasters : ItemList → List RasterKey
  | .nil => []
  | .cons _ it rest => itemRasters it ++ itemsRasters rest

def itemRasters : FrameItem → List RasterKey
  | .group (.mk _ _ gf) => frameRasters gf
  | .text _ => []
  | .shape _ => []
  | .image (.raster k) _ => [k]
  | .image (.svg _ _) _ => []
  | .link _ _ => []
  | .tag => []

end

/-- All fonts used by a document's text items, in traversal order. -/
def docFonts (doc : Doc) : List FontKey :=
  doc.pages.flatMap fun p => frameFonts p.frame

/-- All raster images used by a document, in traversal order. -/
def docRasters (doc : Doc) : List RasterKey :=
  doc.pages.flatMap fun p => frameRasters p.frame

/-! ## Specification-level transform accounting

These definitions follow the specification's words, not the exporter:
the transform of an item is the composition of every ancestor group
transform with the translations to the origins of the item and its
ancestors, accumulated in pre-order; a hard frame freezes the container
chain to the chain at that frame and the container size to the frame's
size, for the whole subtree until a deeper hard frame. -/

mutual

/-- Spec-level: the transforms pushed for the drawable content of a frame
whose accumulated chain is `C`, in pre-order; the background fill (if
any) is drawn at the frame's own chain, before any children. -/
def specPushedFrame (C : Transform) (hasFill : Bool) : Frame → List Transform
  | .mk _ _ items => (if hasFill then [C] else []) ++ specPushedItems C items

def specPushedItems (C : Transform) : ItemList → List Transform
  | .nil => []
  | .cons p it rest =>
    specPushedItem (C.pre_concat (Transform.translate p.x p.y)) it ++ specPushedItems C rest

def specPushedItem (C : Transform) : FrameItem → List Transform
  | .group (.mk gt _ gf) => specPushedFrame (C.pre_concat gt) false gf
  | .text _ => [C]
  | .shape _ => [C]
  | .image _ _ => [C]
  | .link _ _ => []
  | .tag => []

end

/-- Spec-level: the container data reported for one shape's paint calls
(empty geometry draws nothing; the stroke call only happens for positive
thickness). -/
def specContShape (K : Transform) (S : Size) (sh : Shape) : List (Transform × Size) :=
  match builder_finish (shapeVerbs sh.geometry) with
  | none => []
  | some _ =>
    (if sh.fill.isSome then [(K, S)] else []) ++
    (match sh.stroke with
     | some st => if 0 < st.thickness then [(K, S)] else []
     | none => [])

mutual

/-- Spec-level: the container data of every paint call in a frame's
subtree, where `C` is the chain at the frame and `(K, S)` the nearest
enclosing hard-frame data; a hard frame overrides `(K, S)` with
(chain at the frame, frame size) for its whole subtree. -/
def specContFrame (C K : Transform) (S : Size) (fill : Option Paint) :
    Frame → List (Transform × Size)
  | .mk kind size items =>
    let K2 := if kind.is_hard then C else K
    let S2 := if kind.is_hard then size else S
    (match fill with
     | some f => specContShape K2 S2 ((Geometry.rect size).filled f)
     | none => []) ++ specContItems C K2 S2 items

def specContItems (C K : Transform) (S : Size) : ItemList → List (Transform × Size)
  | .nil => []
  | .cons p it rest =>
    specContItem (C.pre_concat (Transform.translate p.x p.y)) K S it ++
      specContItems C K S rest

def specContItem (C K : Transform) (S : Size) : FrameItem → List (Transform × Size)
  | .group (.mk gt _ gf) => specContFrame (C.pre_concat gt) K S none gf
  | .text t => (K, S) :: (if t.stroke.isSome then [(K, S)] else [])
  | .shape sh => specContShape K S sh
  | .image _ _ => []
  | .link _ _ => []
  | .tag => []

end

/-- Left fold of cache interning: insert each key at the back on first
use, keep the cache unchanged on a hit. -/
def internFold {α : Type} [DecidableEq α] (acc : List α) : List α → List α
  | [] => acc
  | x :: rest => internFold (if x ∈ acc then acc else acc ++ [x]) rest

/-- The chain at the top of the stack. -/
def chainOf (fc : FrameContext) : Transform := (fc.state).transform_chain

/-- The frozen container chain at the top of the stack. -/
def contChainOf (fc : FrameContext) : Transform := (fc.state).container_transform_chain

/-- The frozen container size at the top of the stack. -/
def contSizeOf (fc : FrameContext) : Size := (fc.state).size

/-- The top state's item transform agrees with its full chain (holds for
every state reachable from a page root). -/
def TopEq (fc : FrameContext) : Prop := (fc.state).transform = (fc.state).transform_chain

/-! ## Toolkit lemmas about the projections -/

theorem net_nil : net [] = 0 := rfl

theorem net_cons (e : Event) (es : List Event) : net (e :: es) = surfDelta e + net es := rfl

theorem net_append (a b : List Event) : net (a ++ b) = net a + net b := by
  induction a with
  | nil => simp [net]
  | cons e es ih => simp [net_cons, ih]; ring

theorem minPre_nil : minPre [] = 0 := rfl

theorem minPre_cons (e : Event) (es : List Event) :
    minPre (e :: es) = min 0 (surfDelta e + minPre es) := rfl

theorem minPre_nonpos (es : List Event) : minPre es ≤ 0 := by
  cases es with
  | nil => simp [minPre]
  | cons e es => simp [minPre_cons]

theorem minPre_append (a b : List Event) :
    minPre (a ++ b) = min (minPre a) (net a + minPre b) := by
  induction a with
  | nil =>
    have := minPre_nonpos b
    simp [minPre, net]
    omega
  | cons e es ih =>
    simp only [List.cons_append, minPre_cons, net_cons, ih]
    omega

theorem Balanced.append {a b : List Event} (ha : Balanced a) (hb : Balanced b) :
    Balanced (a ++ b) := by
  obtain ⟨ha1, ha2⟩ := ha
  obtain ⟨hb1, hb2⟩ := hb
  constructor
  · rw [net_append, ha1, hb1]; ring
  · rw [minPre_append, ha1]
    omega

theorem Balanced.nil : Balanced [] := by constructor <;> rfl

/-- A trace of surface-neutral calls is balanced with flat prefixes. -/
theorem net_minPre_of_zero {es : List Event} (h : ∀ e ∈ es, surfDelta e = 0) :
    net es = 0 ∧ minPre es = 0 := by
  induction es with
  | nil => exact ⟨rfl, rfl⟩
  | cons e es ih =>
    have he := h e (List.mem_cons_self e es)
    have ihh := ih fun x hx => h x (List.mem_cons_of_mem e hx)
    rw [net_cons, minPre_cons, he, ihh.1, ihh.2]
    constructor <;> simp

/-- Wrapping a balanced trace in one push and one matching pop keeps it
balanced. -/
theorem Balanced.wrap {mid : List Event} (e1 e2 : Event)
    (h1 : surfDelta e1 = 1) (h2 : surfDelta e2 = -1) (hb : Balanced mid) :
    Balanced (e1 :: (mid ++ [e2])) := by
  obtain ⟨hn, hm⟩ := hb
  have hmn := minPre_nonpos mid
  constructor
  · rw [net_cons, net_append, hn, h1]
    simp [net_cons, net_nil, h2]
  · rw [minPre_cons, minPre_append, hn, h1]
    simp only [minPre_cons, minPre_nil, h2]
    omega

theorem pushedTransforms_nil : pushedTransforms [] = [] := rfl

theorem pushedTransforms_append (a b : List Event) :
    pushedTransforms (a ++ b) = pushedTransforms a ++ pushedTransforms b :=
  List.filterMap_append a b _

theorem paintTransformsOf_nil : paintTransformsOf [] = [] := rfl

theorem paintTransformsOf_append (a b : List Event) :
    paintTransformsOf (a ++ b) = paintTransformsOf a ++ paintTransformsOf b :=
  List.filterMap_append a b _

theorem containersOf_nil : containersOf [] = [] := rfl

theorem containersOf_append (a b : List Event) :
    containersOf (a ++ b) = containersOf a ++ containersOf b := by
  unfold containersOf
  rw [paintTransformsOf_append, List.map_append]

theorem countFontNew_append (f : FontKey) (a b : List Event) :
    countFontNew f (a ++ b) = countFontNew f a + countFontNew f b :=
  List.countP_append _ a b

theorem countDecode_append (k : RasterKey) (a b : List Event) :
    countDecode k (a ++ b) = countDecode k a + countDecode k b :=
  List.countP_append _ a b

theorem internFold_append {α : Type} [DecidableEq α] (acc : List α) (a b : List α) :
    internFold acc (a ++ b) = internFold (internFold acc a) b := by
  induction a generalizing acc with
  | nil => rfl
  | cons x xs ih =>
    show internFold _ (xs ++ b) = _
    rw [ih]
    rfl

theorem mem_internFold {α : Type} [DecidableEq α] (acc l : List α) (x : α) :
    x ∈ internFold acc l ↔ x ∈ acc ∨ x ∈ l := by
  induction l generalizing acc with
  | nil => simp [internFold]
  | cons y ys ih =>
    simp only [internFold, ih, List.mem_cons]
    by_cases hy : y ∈ acc
    · simp only [if_pos hy]
      constructor
      · tauto
      · rintro (h | h | h) <;> first | tauto | (subst h; tauto)
    · simp only [if_neg hy, List.mem_append, List.mem_singleton]
      tauto

/-- The arithmetic of sequencing two cache-interning traversals. -/
theorem count_combine (pA pB pG : Prop) [Decidable pA] [Decidable pB] [Decidable pG] :
    ((if pA ∧ ¬pG then 1 else 0) : Nat) + (if pB ∧ ¬(pG ∨ pA) then 1 else 0) =
      if (pA ∨ pB) ∧ ¬pG then 1 else 0 := by
  by_cases hA : pA <;> by_cases hB : pB <;> by_cases hG : pG <;> simp [hA, hB, hG]

/-! ## FrameContext bookkeeping lemmas -/

theorem FrameContext.push_state (fc : FrameContext) : fc.push.state = fc.state := rfl

theorem FrameContext.push_states (fc : FrameContext) :
    fc.push.states = fc.state :: fc.states := rfl

theorem FrameContext.modifyTop_state (fc : FrameContext) (f : State → State) :
    (fc.modifyTop f).state = f fc.state := rfl

theorem FrameContext.pushMod_pop (fc : FrameContext) (f : State → State) :
    ((fc.push.modifyTop f)).pop = fc := rfl

theorem FrameContext.state_congr {fc fc' : FrameContext} (h : fc.states = fc'.states) :
    fc.state = fc'.state := by
  unfold FrameContext.state
  rw [h]

theorem chainOf_congr {fc fc' : FrameContext} (h : fc.states = fc'.states) :
    chainOf fc = chainOf fc' := by
  unfold chainOf
  rw [FrameContext.state_congr h]

theorem contChainOf_congr {fc fc' : FrameContext} (h : fc.states = fc'.states) :
    contChainOf fc = contChainOf fc' := by
  unfold contChainOf
  rw [FrameContext.state_congr h]

theorem contSizeOf_congr {fc fc' : FrameContext} (h : fc.states = fc'.states) :
    contSizeOf fc = contSizeOf fc' := by
  unfold contSizeOf
  rw [FrameContext.state_congr h]

theorem TopEq_congr {fc fc' : FrameContext} (h : fc.states = fc'.states) :
    TopEq fc ↔ TopEq fc' := by
  unfold TopEq
  rw [FrameContext.state_congr h]

/-- Applying a transform on top of a pushed state preserves the
transform/chain agreement. -/
theorem TopEq.transform_op {fc : FrameContext} (h : TopEq fc) (t : Transform) :
    TopEq (fc.push.modifyTop fun s => s.transform_op t) := by
  unfold TopEq at *
  simp only [FrameContext.modifyTop_state, FrameContext.push_state, State.transform_op]
  rw [h]

/-- Freezing the container data preserves the transform/chain agreement. -/
theorem TopEq.hard {fc : FrameContext} (h : TopEq fc) (size : Size) :
    TopEq (fc.push.modifyTop fun s => (s.set_container_transform).size_set size) := h

theorem TopEq.push {fc : FrameContext} (h : TopEq fc) : TopEq fc.push := h

theorem chainOf_push (fc : FrameContext) : chainOf fc.push = chainOf fc := rfl

theorem chainOf_hardMod (fc : FrameContext) (size : Size) :
    chainOf (fc.push.modifyTop fun s => (s.set_container_transform).size_set size) =
      chainOf fc := rfl

theorem contChainOf_hardMod (fc : FrameContext) (size : Size) :
    contChainOf (fc.push.modifyTop fun s => (s.set_container_transform).size_set size) =
      chainOf fc := rfl

theorem contSizeOf_hardMod (fc : FrameContext) (size : Size) :
    contSizeOf (fc.push.modifyTop fun s => (s.set_container_transform).size_set size) =
      size := rfl

theorem chainOf_transMod (fc : FrameContext) (t : Transform) :
    chainOf (fc.push.modifyTop fun s => s.transform_op t) = (chainOf fc).pre_concat t := rfl

theorem contChainOf_transMod (fc : FrameContext) (t : Transform) :
    contChainOf (fc.push.modifyTop fun s => s.transform_op t) = contChainOf fc := rfl

theorem contSizeOf_transMod (fc : FrameContext) (t : Transform) :
    contSizeOf (fc.push.modifyTop fun s => s.transform_op t) = contSizeOf fc := rfl

/-! ## The outcome bundle -/

/-- All fonts stored in the cache passed construction. -/
def cacheFontsOk (gc : GlobalContext) : Prop := ∀ f ∈ gc.fonts, f.ok = true

/-- All raster images stored in the cache decoded successfully. -/
def cacheImagesOk (gc : GlobalContext) : Prop := ∀ k ∈ gc.images, k.ok = true

/-- Everything one successful handler or traversal step guarantees: the
state stack is restored exactly, the emitted trace is balanced, its paint
calls report the spec-level container data, the caches evolve by
first-use interning, constructions happen once per new resource, under
transform/chain agreement the pushed transforms match the spec-level
accounting and every paint record keeps that agreement, and (when the
incoming caches are healthy) every resource it consumed constructs
successfully. -/
def Outcome (fc : FrameContext) (gc : GlobalContext) (r : StepRes)
    (pushedSpec : List Transform) (contSpec : List (Transform × Size))
    (fonts : List FontKey) (rasters : List RasterKey) : Prop :=
  r.fc.states = fc.states ∧
  Balanced r.evs ∧
  containersOf r.evs = contSpec ∧
  r.gc.fonts = internFold gc.fonts fonts ∧
  r.gc.images = internFold gc.images rasters ∧
  (∀ f : FontKey, countFontNew f r.evs = if f ∈ fonts ∧ f ∉ gc.fonts then 1 else 0) ∧
  (∀ k : RasterKey, countDecode k r.evs = if k ∈ rasters ∧ k ∉ gc.images then 1 else 0) ∧
  (TopEq fc → pushedTransforms r.evs = pushedSpec) ∧
  (TopEq fc → ∀ tr ∈ paintTransformsOf r.evs, tr.transform_ = tr.transform_chain_) ∧
  (cacheFontsOk gc → ∀ f ∈ fonts, f.ok = true) ∧
  (cacheImagesOk gc → ∀ k ∈ rasters, k.ok = true)

/-! ## Component lemmas for the handlers -/

/-- Every drawing call of a shape is one of its fill/stroke calls. -/
theorem mem_shapeDrawEvs (sh : Shape) (st : State) :
    ∀ e ∈ shapeDrawEvs sh st,
      (∃ path paint,
        e = .fill_path path ⟨paint, sh.fill_rule, false, st.transforms sh.geometry.bbox_size⟩) ∨
      (∃ path stroke,
        e = .stroke_path path ⟨stroke, false, st.transforms sh.geometry.bbox_size⟩) := by
  intro e he
  unfold shapeDrawEvs shapeFillEvs shapeStrokeEvs at he
  cases h1 : builder_finish (shapeVerbs sh.geometry) with
  | none => simp only [h1] at he; simp at he
  | some path =>
    simp only [h1, List.mem_append] at he
    rcases he with he | he
    · cases h2 : sh.fill with
      | none => simp only [h2] at he; simp at he
      | some paint =>
        simp only [h2] at he
        simp at he
        exact Or.inl ⟨path, paint, he⟩
    · cases h3 : sh.stroke with
      | none => simp only [h3] at he; simp at he
      | some stroke =>
        simp only [h3] at he
        by_cases h4 : 0 < stroke.thickness
        · simp only [if_pos h4] at he
          simp at he
          exact Or.inr ⟨path, stroke, he⟩
        · simp only [if_neg h4] at he; simp at he

theorem shapeDrawEvs_delta (sh : Shape) (st : State) :
    ∀ e ∈ shapeDrawEvs sh st, surfDelta e = 0 := by
  intro e he
  rcases mem_shapeDrawEvs sh st e he with ⟨p, q, rfl⟩ | ⟨p, q, rfl⟩ <;> rfl

theorem containersOf_shapeDrawEvs (sh : Shape) (st : State) :
    containersOf (shapeDrawEvs sh st) =
      specContShape st.container_transform_chain st.size sh := by
  unfold shapeDrawEvs shapeFillEvs shapeStrokeEvs specContShape
  cases h1 : builder_finish (shapeVerbs sh.geometry) with
  | none => rfl
  | some path =>
    cases h2 : sh.fill with
    | none =>
      cases h3 : sh.stroke with
      | none => rfl
      | some stroke =>
        by_cases h4 : 0 < stroke.thickness <;>
          simp [h4, containersOf, paintTransformsOf, State.transforms]
    | some paint =>
      cases h3 : sh.stroke with
      | none => simp [containersOf, paintTransformsOf, State.transforms]
      | some stroke =>
        by_cases h4 : 0 < stroke.thickness <;>
          simp [h4, containersOf, paintTransformsOf, State.transforms]

theorem pushed_shapeDrawEvs (sh : Shape) (st : State) :
    pushedTransforms (shapeDrawEvs sh st) = [] := by
  rw [pushedTransforms, List.filterMap_eq_nil_iff]
  intro e he
  rcases mem_shapeDrawEvs sh st e he with ⟨p, q, rfl⟩ | ⟨p, q, rfl⟩ <;> rfl

theorem paint_shapeDrawEvs (sh : Shape) (st : State) :
    ∀ tr ∈ paintTransformsOf (shapeDrawEvs sh st),
      tr = st.transforms sh.geometry.bbox_size := by
  intro tr htr
  rw [paintTransformsOf, List.mem_filterMap] at htr
  obtain ⟨e, he, hmap⟩ := htr
  rcases mem_shapeDrawEvs sh st e he with ⟨p, q, rfl⟩ | ⟨p, q, rfl⟩ <;>
    simpa using hmap.symm

theorem countFontNew_shapeDrawEvs (sh : Shape) (st : State) (f : FontKey) :
    countFontNew f (shapeDrawEvs sh st) = 0 := by
  rw [countFontNew, List.countP_eq_zero]
  intro e he
  rcases mem_shapeDrawEvs sh st e he with ⟨p, q, rfl⟩ | ⟨p, q, rfl⟩ <;> simp

theorem countDecode_shapeDrawEvs (sh : Shape) (st : State) (k : RasterKey) :
    countDecode k (shapeDrawEvs sh st) = 0 := by
  rw [countDecode, List.countP_eq_zero]
  intro e he
  rcases mem_shapeDrawEvs sh st e he with ⟨p, q, rfl⟩ | ⟨p, q, rfl⟩ <;> simp

theorem Balanced.of_zero {es : List Event} (h : ∀ e ∈ es, surfDelta e = 0) :
    Balanced es :=
  ⟨(net_minPre_of_zero h).1, le_of_eq (net_minPre_of_zero h).2.symm⟩

/-- The stroke call of a text run exists exactly when the stroke does. -/
theorem mem_textStrokeEvs (t : TextItem) (st : State) :
    ∀ e ∈ textStrokeEvs t st, ∃ s, t.stroke = some s ∧
      e = .stroke_glyphs Point.zero ⟨s, true, st.transforms Size.zero⟩
        (t.glyphs.map pdfGlyph) t.font t.text t.size .normalized true := by
  intro e he
  unfold textStrokeEvs at he
  cases hs : t.stroke with
  | none => simp only [hs] at he; simp at he
  | some s =>
    simp only [hs] at he
    simp at he
    exact ⟨s, rfl, he⟩

theorem containersOf_textStrokeEvs (t : TextItem) (st : State) :
    containersOf (textStrokeEvs t st) =
      if t.stroke.isSome then [(st.container_transform_chain, st.size)] else [] := by
  unfold textStrokeEvs
  cases hs : t.stroke with
  | none => rfl
  | some s => simp [containersOf, paintTransformsOf, State.transforms]

/-! ## Handler outcome lemmas -/

theorem handle_shape_outcome (sh : Shape) (fc : FrameContext) (gc : GlobalContext) :
    Outcome fc gc (handle_shape sh fc gc) [chainOf fc]
      (specContShape (contChainOf fc) (contSizeOf fc) sh) [] [] := by
  unfold Outcome handle_shape
  refine ⟨rfl, ?_, ?_, rfl, rfl, ?_, ?_, ?_, ?_, ?_, ?_⟩
  · exact Balanced.wrap _ _ rfl rfl (Balanced.of_zero (shapeDrawEvs_delta sh fc.state))
  · rw [containersOf_append, containersOf_append]
    rw [containersOf_shapeDrawEvs sh fc.state]
    simp [containersOf, paintTransformsOf, contChainOf, contSizeOf]
  · intro f
    rw [countFontNew_append, countFontNew_append, countFontNew_shapeDrawEvs]
    simp [countFontNew]
  · intro k
    rw [countDecode_append, countDecode_append, countDecode_shapeDrawEvs]
    simp [countDecode]
  · intro hte
    rw [pushedTransforms_append, pushedTransforms_append, pushed_shapeDrawEvs]
    unfold TopEq at hte
    simp [pushedTransforms, chainOf, hte]
  · intro hte tr htr
    rw [paintTransformsOf_append, paintTransformsOf_append] at htr
    simp only [List.mem_append] at htr
    rcases htr with (htr | htr) | htr
    · simp [paintTransformsOf] at htr
    · rw [paint_shapeDrawEvs sh fc.state tr htr]
      exact hte
    · simp [paintTransformsOf] at htr
  · intro _ f hf
    simp at hf
  · intro _ k hk
    simp at hk

/-- The two successful outcomes of font interning. -/
theorem font_intern_cases {gc : GlobalContext} {f : FontKey} {gc2 : GlobalContext}
    {evs : List Event} (h : font_intern gc f = .ok (gc2, evs)) :
    (f ∈ gc.fonts ∧ gc2 = gc ∧ evs = []) ∨
    (f ∉ gc.fonts ∧ f.ok = true ∧ gc2 = { gc with fonts := gc.fonts ++ [f] } ∧
      evs = [.font_new f]) := by
  unfold font_intern at h
  split_ifs at h with h1 h2
  · exact Or.inl ⟨h1, by injection h with h; injection h with h h'; exact h.symm,
      by injection h with h; injection h with h h'; exact h'.symm⟩
  · exact Or.inr ⟨h1, h2, by injection h with h; injection h with h h'; exact h.symm,
      by injection h with h; injection h with h h'; exact h'.symm⟩

/-- The two successful outcomes of the raster decode cache. -/
theorem raster_or_decode_cases {gc : GlobalContext} {k : RasterKey} {gc2 : GlobalContext}
    {evs : List Event} (h : raster_or_decode gc k = .ok (gc2, evs)) :
    (k ∈ gc.images ∧ gc2 = gc ∧ evs = []) ∨
    (k ∉ gc.images ∧ k.ok = true ∧ gc2 = { gc with images := gc.images ++ [k] } ∧
      evs = [.decode_raster k]) := by
  unfold raster_or_decode at h
  split_ifs at h with h1 h2
  · exact Or.inl ⟨h1, by injection h with h; injection h with h h'; exact h.symm,
      by injection h with h; injection h with h h'; exact h'.symm⟩
  · exact Or.inr ⟨h1, h2, by injection h with h; injection h with h h'; exact h.symm,
      by injection h with h; injection h with h h'; exact h'.symm⟩

theorem handle_text_outcome (t : TextItem) (fc : FrameContext) (gc : GlobalContext)
    (r : StepRes) (h : handle_text t fc gc = .ok r) :
    Outcome fc gc r [chainOf fc]
      ((contChainOf fc, contSizeOf fc) ::
        (if t.stroke.isSome then [(contChainOf fc, contSizeOf fc)] else []))
      [t.font] [] := by
  unfold handle_text at h
  cases hfi : font_intern gc t.font with
  | error e => rw [hfi] at h; cases h
  | ok pr =>
    obtain ⟨gc2, fontEvs⟩ := pr
    rw [hfi] at h
    injection h with h
    subst h
    unfold Outcome
    rcases font_intern_cases hfi with ⟨hmem, rfl, rfl⟩ | ⟨hmem, hokf, rfl, rfl⟩
    · cases hs : t.stroke with
      | none =>
        refine ⟨rfl, ?_, ?_, ?_, ?_, ?_, ?_, ?_, ?_, ?_, ?_⟩
        · constructor <;> simp [net, minPre, surfDelta, textStrokeEvs, hs] <;> omega
        · simp [containersOf, paintTransformsOf, State.transforms, contChainOf, contSizeOf,
            textStrokeEvs, hs]
        · simp [internFold, hmem]
        · rfl
        · intro f
          by_cases hf : f = t.font <;>
            simp [countFontNew, hf, hmem, List.countP_cons, textStrokeEvs, hs] <;>
            try exact fun hh => hf hh.symm
        · intro k
          simp [countDecode, List.countP_cons, textStrokeEvs, hs]
        · intro hte
          unfold TopEq at hte
          simp [pushedTransforms, chainOf, hte, textStrokeEvs, hs]
        · intro hte tr htr
          unfold TopEq at hte
          simp [paintTransformsOf, State.transforms, textStrokeEvs, hs] at htr
          first
          | (rcases htr with rfl | rfl
             · exact hte
             · exact hte)
          | (subst htr; exact hte)
        · intro hok f hf
          simp at hf
          subst hf
          first
          | exact hok _ hmem
          | exact hokf
        · intro _ k hk
          simp at hk
      | some s =>
        refine ⟨rfl, ?_, ?_, ?_, ?_, ?_, ?_, ?_, ?_, ?_, ?_⟩
        · constructor <;> simp [net, minPre, surfDelta, textStrokeEvs, hs] <;> omega
        · simp [containersOf, paintTransformsOf, State.transforms, contChainOf, contSizeOf,
            textStrokeEvs, hs]
        · simp [internFold, hmem]
        · rfl
        · intro f
          by_cases hf : f = t.font <;>
            simp [countFontNew, hf, hmem, List.countP_cons, textStrokeEvs, hs] <;>
            try exact fun hh => hf hh.symm
        · intro k
          simp [countDecode, List.countP_cons, textStrokeEvs, hs]
        · intro hte
          unfold TopEq at hte
          simp [pushedTransforms, chainOf, hte, textStrokeEvs, hs]
        · intro hte tr htr
          unfold TopEq at hte
          simp [paintTransformsOf, State.transforms, textStrokeEvs, hs] at htr
          first
          | (rcases htr with rfl | rfl
             · exact hte
             · exact hte)
          | (subst htr; exact hte)
        · intro hok f hf
          simp at hf
          subst hf
          first
          | exact hok _ hmem
          | exact hokf
        · intro _ k hk
          simp at hk
    · cases hs : t.stroke with
      | none =>
        refine ⟨rfl, ?_, ?_, ?_, ?_, ?_, ?_, ?_, ?_, ?_, ?_⟩
        · constructor <;> simp [net, minPre, surfDelta, textStrokeEvs, hs] <;> omega
        · simp [containersOf, paintTransformsOf, State.transforms, contChainOf, contSizeOf,
            textStrokeEvs, hs]
        · simp [internFold, hmem]
        · rfl
        · intro f
          by_cases hf : f = t.font <;>
            simp [countFontNew, hf, hmem, List.countP_cons, textStrokeEvs, hs] <;>
            try exact fun hh => hf hh.symm
        · intro k
          simp [countDecode, List.countP_cons, textStrokeEvs, hs]
        · intro hte
          unfold TopEq at hte
          simp [pushedTransforms, chainOf, hte, textStrokeEvs, hs]
        · intro hte tr htr
          unfold TopEq at hte
          simp [paintTransformsOf, State.transforms, textStrokeEvs, hs] at htr
          first
          | (rcases htr with rfl | rfl
             · exact hte
             · exact hte)
          | (subst htr; exact hte)
        · intro hok f hf
          simp at hf
          subst hf
          first
          | exact hok _ hmem
          | exact hokf
        · intro _ k hk
          simp at hk
      | some s =>
        refine ⟨rfl, ?_, ?_, ?_, ?_, ?_, ?_, ?_, ?_, ?_, ?_⟩
        · constructor <;> simp [net, minPre, surfDelta, textStrokeEvs, hs] <;> omega
        · simp [containersOf, paintTransformsOf, State.transforms, contChainOf, contSizeOf,
            textStrokeEvs, hs]
        · simp [internFold, hmem]
        · rfl
        · intro f
          by_cases hf : f = t.font <;>
            simp [countFontNew, hf, hmem, List.countP_cons, textStrokeEvs, hs] <;>
            try exact fun hh => hf hh.symm
        · intro k
          simp [countDecode, List.countP_cons, textStrokeEvs, hs]
        · intro hte
          unfold TopEq at hte
          simp [pushedTransforms, chainOf, hte, textStrokeEvs, hs]
        · intro hte tr htr
          unfold TopEq at hte
          simp [paintTransformsOf, State.transforms, textStrokeEvs, hs] at htr
          first
          | (rcases htr with rfl | rfl
             · exact hte
             · exact hte)
          | (subst htr; exact hte)
        · intro hok f hf
          simp at hf
          subst hf
          first
          | exact hok _ hmem
          | exact hokf
        · intro _ k hk
          simp at hk

theorem handle_image_outcome (img : Image) (size : Size) (fc : FrameContext)
    (gc : GlobalContext) (r : StepRes) (h : handle_image img size fc gc = .ok r) :
    Outcome fc gc r [chainOf fc] [] []
      (match img with
       | .raster k => [k]
       | .svg _ _ => []) := by
  cases img with
  | svg tree flatten =>
    simp only [handle_image] at h
    injection h with h
    subst h
    unfold Outcome
    refine ⟨rfl, ?_, ?_, rfl, rfl, ?_, ?_, ?_, ?_, ?_, ?_⟩
    · constructor <;> simp [net, minPre, surfDelta] <;> omega
    · rfl
    · intro f; simp [countFontNew, List.countP_cons]
    · intro k; simp [countDecode, List.countP_cons]
    · intro hte
      unfold TopEq at hte
      simp [pushedTransforms, chainOf, hte]
    · intro hte tr htr
      simp [paintTransformsOf] at htr
    · intro _ f hf; simp at hf
    · intro _ k hk; simp at hk
  | raster k =>
    simp only [handle_image] at h
    cases hrd : raster_or_decode gc k with
    | error e => rw [hrd] at h; cases h
    | ok pr =>
      obtain ⟨gc2, decEvs⟩ := pr
      rw [hrd] at h
      injection h with h
      subst h
      unfold Outcome
      rcases raster_or_decode_cases hrd with ⟨hmem, rfl, rfl⟩ | ⟨hmem, hokk, rfl, rfl⟩ <;>
        refine ⟨rfl, ?_, ?_, ?_, ?_, ?_, ?_, ?_, ?_, ?_, ?_⟩
      · constructor <;> simp [net, minPre, surfDelta] <;> omega
      · rfl
      · rfl
      · simp [internFold, hmem]
      · intro f; simp [countFontNew, List.countP_cons]
      · intro k2
        by_cases hk : k2 = k <;> simp [countDecode, hk, hmem, List.countP_cons] <;>
          try exact fun hh => hk hh.symm
      · intro hte
        unfold TopEq at hte
        simp [pushedTransforms, chainOf, hte]
      · intro hte tr htr
        simp [paintTransformsOf] at htr
      · intro _ f hf; simp at hf
      · intro hok k2 hk2
        simp at hk2
        subst hk2
        exact hok _ hmem
      · constructor <;> simp [net, minPre, surfDelta] <;> omega
      · rfl
      · rfl
      · simp [internFold, hmem]
      · intro f; simp [countFontNew, List.countP_cons]
      · intro k2
        by_cases hk : k2 = k <;> simp [countDecode, hk, hmem, List.countP_cons] <;>
          try exact fun hh => hk hh.symm
      · intro hte
        unfold TopEq at hte
        simp [pushedTransforms, chainOf, hte]
      · intro hte tr htr
        simp [paintTransformsOf] at htr
      · intro _ f hf; simp at hf
      · intro _ k2 hk2
        simp at hk2
        subst hk2
        exact hokk

/-- The four-way minimum never exceeds the four-way maximum, so the
`Rect::from_ltrb` call of `write_link` always succeeds, with the bounding
box itself. -/
theorem linkRect_some (st : State) (size : Size) :
    rect_from_ltrb (linkRectVal st size).left (linkRectVal st size).top
      (linkRectVal st size).right (linkRectVal st size).bottom =
      some (linkRectVal st size) := by
  unfold rect_from_ltrb linkRectVal
  rw [if_pos]
  constructor
  · calc min (min (min (Point.transform Point.zero st.transform).x _) _) _ ≤ _ :=
      min_le_left _ _
    _ ≤ _ := min_le_left _ _
    _ ≤ (Point.transform Point.zero st.transform).x := min_le_left _ _
    _ ≤ max (Point.transform Point.zero st.transform).x _ := le_max_left _ _
    _ ≤ max (max (Point.transform Point.zero st.transform).x _) _ := le_max_left _ _
    _ ≤ _ := le_max_left _ _
  · calc min (min (min (Point.transform Point.zero st.transform).y _) _) _ ≤ _ :=
      min_le_left _ _
    _ ≤ _ := min_le_left _ _
    _ ≤ (Point.transform Point.zero st.transform).y := min_le_left _ _
    _ ≤ max (Point.transform Point.zero st.transform).y _ := le_max_left _ _
    _ ≤ max (max (Point.transform Point.zero st.transform).y _) _ := le_max_left _ _
    _ ≤ _ := le_max_left _ _

theorem write_link_states {fc : FrameContext} {dest : Destination} {size : Size}
    {fc' : FrameContext} (h : write_link fc dest size = .ok fc') :
    fc'.states = fc.states := by
  unfold write_link at h
  rw [linkRect_some] at h
  cases dest <;> (injection h with h; subst h; rfl)

/-! ## Unfolding equations for the mutual traversal functions -/

theorem process_frame_eq (kind : FrameKind) (size : Size) (items : ItemList)
    (fill : Option Paint) (fc : FrameContext) (gc : GlobalContext) :
    process_frame (.mk kind size items) fill fc gc =
      (match process_items items
          (match fill with
           | some f =>
             handle_shape ((Geometry.rect size).filled f)
               (if kind.is_hard then
                 fc.push.modifyTop fun s => (s.set_container_transform).size_set size
                else fc.push) gc
           | none =>
             ⟨(if kind.is_hard then
                 fc.push.modifyTop fun s => (s.set_container_transform).size_set size
                else fc.push), gc, []⟩).fc
          (match fill with
           | some f =>
             handle_shape ((Geometry.rect size).filled f)
               (if kind.is_hard then
                 fc.push.modifyTop fun s => (s.set_container_transform).size_set size
                else fc.push) gc
           | none =>
             ⟨(if kind.is_hard then
                 fc.push.modifyTop fun s => (s.set_container_transform).size_set size
                else fc.push), gc, []⟩).gc with
       | .error e => .error e
       | .ok r2 =>
         .ok ⟨r2.fc.pop, r2.gc,
           (match fill with
            | some f =>
              handle_shape ((Geometry.rect size).filled f)
                (if kind.is_hard then
                  fc.push.modifyTop fun s => (s.set_container_transform).size_set size
                 else fc.push) gc
            | none =>
              ⟨(if kind.is_hard then
                  fc.push.modifyTop fun s => (s.set_container_transform).size_set size
                 else fc.push), gc, []⟩).evs ++ r2.evs⟩) := rfl

theorem process_frame_hard_none_eq (size : Size) (items : ItemList)
    (fc : FrameContext) (gc : GlobalContext) :
    process_frame (.mk .hard size items) none fc gc =
      (match process_items items
          (fc.push.modifyTop fun s => (s.set_container_transform).size_set size) gc with
       | .error e => .error e
       | .ok r2 => .ok ⟨r2.fc.pop, r2.gc, r2.evs⟩) := rfl

theorem process_frame_soft_none_eq (size : Size) (items : ItemList)
    (fc : FrameContext) (gc : GlobalContext) :
    process_frame (.mk .soft size items) none fc gc =
      (match process_items items fc.push gc with
       | .error e => .error e
       | .ok r2 => .ok ⟨r2.fc.pop, r2.gc, r2.evs⟩) := rfl

theorem process_frame_hard_some_eq (size : Size) (items : ItemList) (f : Paint)
    (fc : FrameContext) (gc : GlobalContext) :
    process_frame (.mk .hard size items) (some f) fc gc =
      (match process_items items
          (fc.push.modifyTop fun s => (s.set_container_transform).size_set size) gc with
       | .error e => .error e
       | .ok r2 =>
         .ok ⟨r2.fc.pop, r2.gc,
           (handle_shape ((Geometry.rect size).filled f)
             (fc.push.modifyTop fun s => (s.set_container_transform).size_set size) gc).evs ++
           r2.evs⟩) := rfl

theorem process_frame_soft_some_eq (size : Size) (items : ItemList) (f : Paint)
    (fc : FrameContext) (gc : GlobalContext) :
    process_frame (.mk .soft size items) (some f) fc gc =
      (match process_items items fc.push gc with
       | .error e => .error e
       | .ok r2 =>
         .ok ⟨r2.fc.pop, r2.gc,
           (handle_shape ((Geometry.rect size).filled f) fc.push gc).evs ++ r2.evs⟩) := rfl

theorem process_items_nil_eq (fc : FrameContext) (gc : GlobalContext) :
    process_items .nil fc gc = .ok ⟨fc, gc, []⟩ := rfl

theorem process_items_cons_eq (p : Point) (it : FrameItem) (rest : ItemList)
    (fc : FrameContext) (gc : GlobalContext) :
    process_items (.cons p it rest) fc gc =
      (match handle_item it (fc.push.modifyTop fun s =>
          s.transform_op (Transform.translate p.x p.y)) gc with
       | .error e => .error e
       | .ok r1 =>
         match process_items rest r1.fc.pop r1.gc with
         | .error e => .error e
         | .ok r2 => .ok ⟨r2.fc, r2.gc, r1.evs ++ r2.evs⟩) := rfl

theorem handle_item_group_eq (g : GroupItem) (fc : FrameContext) (gc : GlobalContext) :
    handle_item (.group g) fc gc = handle_group g fc gc := rfl

theorem handle_item_text_eq (t : TextItem) (fc : FrameContext) (gc : GlobalContext) :
    handle_item (.text t) fc gc = handle_text t fc gc := rfl

theorem handle_item_shape_eq (s : Shape) (fc : FrameContext) (gc : GlobalContext) :
    handle_item (.shape s) fc gc = .ok (handle_shape s fc gc) := rfl

theorem handle_item_image_eq (img : Image) (size : Size) (fc : FrameContext)
    (gc : GlobalContext) :
    handle_item (.image img size) fc gc = handle_image img size fc gc := rfl

theorem handle_item_link_eq (d : Destination) (s : Size) (fc : FrameContext)
    (gc : GlobalContext) :
    handle_item (.link d s) fc gc =
      (match write_link fc d s with
       | .error e => .error e
       | .ok fc2 => .ok ⟨fc2, gc, []⟩) := rfl

theorem handle_item_tag_eq (fc : FrameContext) (gc : GlobalContext) :
    handle_item .tag fc gc = .ok ⟨fc, gc, []⟩ := rfl

theorem handle_group_eq (gt : Transform) (clip : Option Path) (gframe : Frame)
    (fc : FrameContext) (gc : GlobalContext) :
    handle_group (.mk gt clip gframe) fc gc =
      (match process_frame gframe none (fc.push.modifyTop fun s => s.transform_op gt) gc with
       | .error e => .error e
       | .ok r =>
         .ok ⟨r.fc.pop, r.gc,
           (match (clip.bind fun p => builder_finish (convert_path p)).bind
               (fun pv => path_transform_k
                 ((fc.push.modifyTop fun s => s.transform_op gt)).state.transform pv) with
            | some (vs, t) => [.push_clip_path vs t .k_non_zero]
            | none => []) ++ r.evs ++
           (if ((clip.bind fun p => builder_finish (convert_path p)).bind
               (fun pv => path_transform_k
                 ((fc.push.modifyTop fun s => s.transform_op gt)).state.transform pv)).isSome
            then [.pop] else [])⟩) := rfl

/-! ## Unfolding equations for the mutual document projections -/

theorem frameFonts_eq (k : FrameKind) (s : Size) (items : ItemList) :
    frameFonts (.mk k s items) = itemsFonts items := rfl

theorem itemsFonts_nil_eq : itemsFonts .nil = [] := rfl

theorem itemsFonts_cons_eq (p : Point) (it : FrameItem) (rest : ItemList) :
    itemsFonts (.cons p it rest) = itemFonts it ++ itemsFonts rest := rfl

theorem itemFonts_group_eq (gt : Transform) (cp : Option Path) (gf : Frame) :
    itemFonts (.group (.mk gt cp gf)) = frameFonts gf := rfl

theorem itemFonts_text_eq (t : TextItem) : itemFonts (.text t) = [t.font] := rfl

theorem itemFonts_shape_eq (s : Shape) : itemFonts (.shape s) = [] := rfl

theorem itemFonts_image_eq (img : Image) (s : Size) : itemFonts (.image img s) = [] := by
  cases img <;> rfl

theorem itemFonts_link_eq (d : Destination) (s : Size) : itemFonts (.link d s) = [] := rfl

theorem itemFonts_tag_eq : itemFonts .tag = [] := rfl

theorem frameRasters_eq (k : FrameKind) (s : Size) (items : ItemList) :
    frameRasters (.mk k s items) = itemsRasters items := rfl

theorem itemsRasters_nil_eq : itemsRasters .nil = [] := rfl

theorem itemsRasters_cons_eq (p : Point) (it : FrameItem) (rest : ItemList) :
    itemsRasters (.cons p it rest) = itemRasters it ++ itemsRasters rest := rfl

theorem itemRasters_group_eq (gt : Transform) (cp : Option Path) (gf : Frame) :
    itemRasters (.group (.mk gt cp gf)) = frameRasters gf := rfl

theorem itemRasters_text_eq (t : TextItem) : itemRasters (.text t) = [] := rfl

theorem itemRasters_shape_eq (s : Shape) : itemRasters (.shape s) = [] := rfl

theorem itemRasters_raster_eq (k : RasterKey) (s : Size) :
    itemRasters (.image (.raster k) s) = [k] := rfl

theorem itemRasters_svg_eq (tree : Nat) (flat : Bool) (s : Size) :
    itemRasters (.image (.svg tree flat) s) = [] := rfl

theorem itemRasters_link_eq (d : Destination) (s : Size) : itemRasters (.link d s) = [] := rfl

theorem itemRasters_tag_eq : itemRasters .tag = [] := rfl

theorem specPushedFrame_eq (C : Transform) (hasFill : Bool) (k : FrameKind) (s : Size)
    (items : ItemList) :
    specPushedFrame C hasFill (.mk k s items) =
      (if hasFill then [C] else []) ++ specPushedItems C items := rfl

theorem specPushedItems_nil_eq (C : Transform) : specPushedItems C .nil = [] := rfl

theorem specPushedItems_cons_eq (C : Transform) (p : Point) (it : FrameItem)
    (rest : ItemList) :
    specPushedItems C (.cons p it rest) =
      specPushedItem (C.pre_concat (Transform.translate p.x p.y)) it ++
        specPushedItems C rest := rfl

theorem specPushedItem_group_eq (C : Transform) (gt : Transform) (cp : Option Path)
    (gf : Frame) :
    specPushedItem C (.group (.mk gt cp gf)) =
      specPushedFrame (C.pre_concat gt) false gf := rfl

theorem specPushedItem_text_eq (C : Transform) (t : TextItem) :
    specPushedItem C (.text t) = [C] := rfl

theorem specPushedItem_shape_eq (C : Transform) (s : Shape) :
    specPushedItem C (.shape s) = [C] := rfl

theorem specPushedItem_image_eq (C : Transform) (img : Image) (s : Size) :
    specPushedItem C (.image img s) = [C] := rfl

theorem specPushedItem_link_eq (C : Transform) (d : Destination) (s : Size) :
    specPushedItem C (.link d s) = [] := rfl

theorem specPushedItem_tag_eq (C : Transform) : specPushedItem C .tag = [] := rfl

theorem specContFrame_eq (C K : Transform) (S : Size) (fill : Option Paint)
    (kind : FrameKind) (size : Size) (items : ItemList) :
    specContFrame C K S fill (.mk kind size items) =
      (match fill with
       | some f =>
         specContShape (if kind.is_hard then C else K) (if kind.is_hard then size else S)
           ((Geometry.rect size).filled f)
       | none => []) ++
      specContItems C (if kind.is_hard then C else K)
        (if kind.is_hard then size else S) items := rfl

theorem specContItems_nil_eq (C K : Transform) (S : Size) :
    specContItems C K S .nil = [] := rfl

theorem specContItems_cons_eq (C K : Transform) (S : Size) (p : Point) (it : FrameItem)
    (rest : ItemList) :
    specContItems C K S (.cons p it rest) =
      specContItem (C.pre_concat (Transform.translate p.x p.y)) K S it ++
        specContItems C K S rest := rfl

theorem specContItem_group_eq (C K : Transform) (S : Size) (gt : Transform)
    (cp : Option Path) (gf : Frame) :
    specContItem C K S (.group (.mk gt cp gf)) =
      specContFrame (C.pre_concat gt) K S none gf := rfl

theorem specContItem_text_eq (C K : Transform) (S : Size) (t : TextItem) :
    specContItem C K S (.text t) =
      (K, S) :: (if t.stroke.isSome then [(K, S)] else []) := rfl

theorem specContItem_shape_eq (C K : Transform) (S : Size) (sh : Shape) :
    specContItem C K S (.shape sh) = specContShape K S sh := rfl

theorem specContItem_image_eq (C K : Transform) (S : Size) (img : Image) (s : Size) :
    specContItem C K S (.image img s) = [] := rfl

theorem specContItem_link_eq (C K : Transform) (S : Size) (d : Destination) (s : Size) :
    specContItem C K S (.link d s) = [] := rfl

theorem specContItem_tag_eq (C K : Transform) (S : Size) :
    specContItem C K S .tag = [] := rfl

/-! ## The traversal invariant, by mutual induction over the frame tree -/

mutual

theorem process_frame_outcome (frame : Frame) (fill : Option Paint) (fc : FrameContext)
    (gc : GlobalContext) (r : StepRes) (h : process_frame frame fill fc gc = .ok r) :
    Outcome fc gc r (specPushedFrame (chainOf fc) fill.isSome frame)
      (specContFrame (chainOf fc) (contChainOf fc) (contSizeOf fc) fill frame)
      (frameFonts frame) (frameRasters frame) := by
  cases frame with
  | mk kind size items =>
    cases kind with
    | hard =>
      cases fill with
      | none =>
          rw [process_frame_hard_none_eq] at h
          split at h
          · cases h
          · rename_i r2 hpi
            injection h with h
            subst h
            obtain ⟨g1, g2, g3, g4, g5, g6, g7, g8, g9, g10, g11⟩ :=
              process_items_outcome items (fc.push.modifyTop fun s => (s.set_container_transform).size_set size) gc r2 hpi
            refine ⟨?_, ?_, ?_, ?_, ?_, ?_, ?_, ?_, ?_, ?_, ?_⟩
            · show (r2.fc.states).tail = fc.states
              rw [g1]
              rfl
            · exact g2
            · show containersOf r2.evs = _
              rw [g3, specContFrame_eq]
              rfl
            · show r2.gc.fonts = _
              rw [g4, frameFonts_eq]
            · show r2.gc.images = _
              rw [g5, frameRasters_eq]
            · intro f
              rw [g6 f, frameFonts_eq]
            · intro k
              rw [g7 k, frameRasters_eq]
            · intro hte
              rw [g8 (TopEq.hard hte size), specPushedFrame_eq]
              rfl
            · intro hte tr htr
              exact g9 (TopEq.hard hte size) tr htr
            · intro hok f hf
              rw [frameFonts_eq] at hf
              exact g10 hok f hf
            · intro hok k hk
              rw [frameRasters_eq] at hk
              exact g11 hok k hk
      | some f =>
          rw [process_frame_hard_some_eq] at h
          split at h
          · cases h
          · rename_i r2 hpi
            injection h with h
            subst h
            obtain ⟨hs1, hs2, hs3, hs4, hs5, hs6, hs7, hs8, hs9, hs10, hs11⟩ :=
              handle_shape_outcome ((Geometry.rect size).filled f) (fc.push.modifyTop fun s => (s.set_container_transform).size_set size) gc
            obtain ⟨g1, g2, g3, g4, g5, g6, g7, g8, g9, g10, g11⟩ :=
              process_items_outcome items (fc.push.modifyTop fun s => (s.set_container_transform).size_set size) gc r2 hpi
            refine ⟨?_, ?_, ?_, ?_, ?_, ?_, ?_, ?_, ?_, ?_, ?_⟩
            · show (r2.fc.states).tail = fc.states
              rw [g1]
              rfl
            · exact Balanced.append hs2 g2
            · show containersOf (_ ++ r2.evs) = _
              rw [containersOf_append, hs3, g3, specContFrame_eq]
              rfl
            · show r2.gc.fonts = _
              rw [g4, frameFonts_eq]
            · show r2.gc.images = _
              rw [g5, frameRasters_eq]
            · intro f2
              show countFontNew f2 (_ ++ r2.evs) = _
              rw [countFontNew_append, hs6 f2, g6 f2, frameFonts_eq]
              simp
            · intro k
              show countDecode k (_ ++ r2.evs) = _
              rw [countDecode_append, hs7 k, g7 k, frameRasters_eq]
              simp
            · intro hte
              show pushedTransforms (_ ++ r2.evs) = _
              rw [pushedTransforms_append, hs8 (TopEq.hard hte size), g8 (TopEq.hard hte size), specPushedFrame_eq]
              rfl
            · intro hte tr htr
              rw [paintTransformsOf_append, List.mem_append] at htr
              rcases htr with htr | htr
              · exact hs9 (TopEq.hard hte size) tr htr
              · exact g9 (TopEq.hard hte size) tr htr
            · intro hok f2 hf
              rw [frameFonts_eq] at hf
              exact g10 hok f2 hf
            · intro hok k hk
              rw [frameRasters_eq] at hk
              exact g11 hok k hk
    | soft =>
      cases fill with
      | none =>
          rw [process_frame_soft_none_eq] at h
          split at h
          · cases h
          · rename_i r2 hpi
            injection h with h
            subst h
            obtain ⟨g1, g2, g3, g4, g5, g6, g7, g8, g9, g10, g11⟩ :=
              process_items_outcome items fc.push gc r2 hpi
            refine ⟨?_, ?_, ?_, ?_, ?_, ?_, ?_, ?_, ?_, ?_, ?_⟩
            · show (r2.fc.states).tail = fc.states
              rw [g1]
              rfl
            · exact g2
            · show containersOf r2.evs = _
              rw [g3, specContFrame_eq]
              rfl
            · show r2.gc.fonts = _
              rw [g4, frameFonts_eq]
            · show r2.gc.images = _
              rw [g5, frameRasters_eq]
            · intro f
              rw [g6 f, frameFonts_eq]
            · intro k
              rw [g7 k, frameRasters_eq]
            · intro hte
              rw [g8 (TopEq.push hte), specPushedFrame_eq]
              rfl
            · intro hte tr htr
              exact g9 (TopEq.push hte) tr htr
            · intro hok f hf
              rw [frameFonts_eq] at hf
              exact g10 hok f hf
            · intro hok k hk
              rw [frameRasters_eq] at hk
              exact g11 hok k hk
      | some f =>
          rw [process_frame_soft_some_eq] at h
          split at h
          · cases h
          · rename_i r2 hpi
            injection h with h
            subst h
            obtain ⟨hs1, hs2, hs3, hs4, hs5, hs6, hs7, hs8, hs9, hs10, hs11⟩ :=
              handle_shape_outcome ((Geometry.rect size).filled f) fc.push gc
            obtain ⟨g1, g2, g3, g4, g5, g6, g7, g8, g9, g10, g11⟩ :=
              process_items_outcome items fc.push gc r2 hpi
            refine ⟨?_, ?_, ?_, ?_, ?_, ?_, ?_, ?_, ?_, ?_, ?_⟩
            · show (r2.fc.states).tail = fc.states
              rw [g1]
              rfl
            · exact Balanced.append hs2 g2
            · show containersOf (_ ++ r2.evs) = _
              rw [containersOf_append, hs3, g3, specContFrame_eq]
              rfl
            · show r2.gc.fonts = _
              rw [g4, frameFonts_eq]
            · show r2.gc.images = _
              rw [g5, frameRasters_eq]
            · intro f2
              show countFontNew f2 (_ ++ r2.evs) = _
              rw [countFontNew_append, hs6 f2, g6 f2, frameFonts_eq]
              simp
            · intro k
              show countDecode k (_ ++ r2.evs) = _
              rw [countDecode_append, hs7 k, g7 k, frameRasters_eq]
              simp
            · intro hte
              show pushedTransforms (_ ++ r2.evs) = _
              rw [pushedTransforms_append, hs8 (TopEq.push hte), g8 (TopEq.push hte), specPushedFrame_eq]
              rfl
            · intro hte tr htr
              rw [paintTransformsOf_append, List.mem_append] at htr
              rcases htr with htr | htr
              · exact hs9 (TopEq.push hte) tr htr
              · exact g9 (TopEq.push hte) tr htr
            · intro hok f2 hf
              rw [frameFonts_eq] at hf
              exact g10 hok f2 hf
            · intro hok k hk
              rw [frameRasters_eq] at hk
              exact g11 hok k hk
termination_by sizeOf frame

theorem process_items_outcome (items : ItemList) (fc : FrameContext)
    (gc : GlobalContext) (r : StepRes) (h : process_items items fc gc = .ok r) :
    Outcome fc gc r (specPushedItems (chainOf fc) items)
      (specContItems (chainOf fc) (contChainOf fc) (contSizeOf fc) items)
      (itemsFonts items) (itemsRasters items) := by
  cases items with
  | nil =>
    rw [process_items_nil_eq] at h
    injection h with h
    subst h
    refine ⟨rfl, Balanced.nil, rfl, rfl, rfl, ?_, ?_, ?_, ?_, ?_, ?_⟩
    · intro f; simp [countFontNew, itemsFonts_nil_eq]
    · intro k; simp [countDecode, itemsRasters_nil_eq]
    · intro _; rw [specPushedItems_nil_eq]; rfl
    · intro _ tr htr; simp [paintTransformsOf] at htr
    · intro _ f hf; simp [itemsFonts_nil_eq] at hf
    · intro _ k hk; simp [itemsRasters_nil_eq] at hk
  | cons p it rest =>
    rw [process_items_cons_eq] at h
    split at h
    · cases h
    · rename_i r1 hhi
      split at h
      · cases h
      · rename_i r2 hrest
        injection h with h
        subst h
        obtain ⟨h1, h2, h3, h4, h5, h6, h7, h8, h9, h10, h11⟩ :=
          handle_item_outcome it (fc.push.modifyTop fun s =>
            s.transform_op (Transform.translate p.x p.y)) gc r1 hhi
        have hst : (r1.fc.pop).states = fc.states := by
          show (r1.fc.states).tail = fc.states
          rw [h1]
          rfl
        obtain ⟨g1, g2, g3, g4, g5, g6, g7, g8, g9, g10, g11⟩ :=
          process_items_outcome rest r1.fc.pop r1.gc r2 hrest
        rw [chainOf_congr hst, contChainOf_congr hst, contSizeOf_congr hst] at g3
        rw [chainOf_congr hst] at g8
        refine ⟨?_, ?_, ?_, ?_, ?_, ?_, ?_, ?_, ?_, ?_, ?_⟩
        · show r2.fc.states = fc.states
          rw [g1, hst]
        · exact Balanced.append h2 g2
        · show containersOf (r1.evs ++ r2.evs) = _
          rw [containersOf_append, h3, g3, specContItems_cons_eq]
          rfl
        · show r2.gc.fonts = _
          rw [g4, h4, itemsFonts_cons_eq, internFold_append]
        · show r2.gc.images = _
          rw [g5, h5, itemsRasters_cons_eq, internFold_append]
        · intro f
          show countFontNew f (r1.evs ++ r2.evs) = _
          have hg6 := g6 f
          rw [h4] at hg6
          rw [countFontNew_append, h6 f, hg6, itemsFonts_cons_eq]
          simp only [mem_internFold, List.mem_append]
          exact count_combine _ _ _
        · intro k
          show countDecode k (r1.evs ++ r2.evs) = _
          have hg7 := g7 k
          rw [h5] at hg7
          rw [countDecode_append, h7 k, hg7, itemsRasters_cons_eq]
          simp only [mem_internFold, List.mem_append]
          exact count_combine _ _ _
        · intro hte
          show pushedTransforms (r1.evs ++ r2.evs) = _
          rw [pushedTransforms_append,
            h8 (hte.transform_op (Transform.translate p.x p.y)),
            g8 ((TopEq_congr hst).mpr hte), specPushedItems_cons_eq]
          rfl
        · intro hte tr htr
          show tr.transform_ = tr.transform_chain_
          rw [paintTransformsOf_append, List.mem_append] at htr
          rcases htr with htr | htr
          · exact h9 (hte.transform_op (Transform.translate p.x p.y)) tr htr
          · exact g9 ((TopEq_congr hst).mpr hte) tr htr
        · intro hok f hf
          rw [itemsFonts_cons_eq, List.mem_append] at hf
          rcases hf with hf | hf
          · exact h10 hok f hf
          · refine g10 ?_ f hf
            intro f2 hf2
            rw [h4, mem_internFold] at hf2
            rcases hf2 with hf2 | hf2
            · exact hok f2 hf2
            · exact h10 hok f2 hf2
        · intro hok k hk
          rw [itemsRasters_cons_eq, List.mem_append] at hk
          rcases hk with hk | hk
          · exact h11 hok k hk
          · refine g11 ?_ k hk
            intro k2 hk2
            rw [h5, mem_internFold] at hk2
            rcases hk2 with hk2 | hk2
            · exact hok k2 hk2
            · exact h11 hok k2 hk2
termination_by sizeOf items

theorem handle_item_outcome (item : FrameItem) (fc : FrameContext)
    (gc : GlobalContext) (r : StepRes) (h : handle_item item fc gc = .ok r) :
    Outcome fc gc r (specPushedItem (chainOf fc) item)
      (specContItem (chainOf fc) (contChainOf fc) (contSizeOf fc) item)
      (itemFonts item) (itemRasters item) := by
  cases item with
  | group g =>
    rw [handle_item_group_eq] at h
    exact handle_group_outcome g fc gc r h
  | text t =>
    rw [handle_item_text_eq] at h
    exact handle_text_outcome t fc gc r h
  | shape s =>
    rw [handle_item_shape_eq] at h
    injection h with h
    subst h
    exact handle_shape_outcome s fc gc
  | image img size =>
    rw [handle_item_image_eq] at h
    cases img with
    | raster k => exact handle_image_outcome (.raster k) size fc gc r h
    | svg tree flat => exact handle_image_outcome (.svg tree flat) size fc gc r h
  | link d s =>
    rw [handle_item_link_eq] at h
    cases hw : write_link fc d s with
    | error e => rw [hw] at h; cases h
    | ok fc2 =>
      rw [hw] at h
      injection h with h
      subst h
      refine ⟨write_link_states hw, Balanced.nil, rfl, rfl, rfl, ?_, ?_, ?_, ?_, ?_, ?_⟩
      · intro f; simp [countFontNew, itemFonts_link_eq]
      · intro k; simp [countDecode, itemRasters_link_eq]
      · intro _; rfl
      · intro _ tr htr; simp [paintTransformsOf] at htr
      · intro _ f hf; simp [itemFonts_link_eq] at hf
      · intro _ k hk; simp [itemRasters_link_eq] at hk
  | tag =>
    rw [handle_item_tag_eq] at h
    injection h with h
    subst h
    refine ⟨rfl, Balanced.nil, rfl, rfl, rfl, ?_, ?_, ?_, ?_, ?_, ?_⟩
    · intro f; simp [countFontNew, itemFonts_tag_eq]
    · intro k; simp [countDecode, itemRasters_tag_eq]
    · intro _; rfl
    · intro _ tr htr; simp [paintTransformsOf] at htr
    · intro _ f hf; simp [itemFonts_tag_eq] at hf
    · intro _ k hk; simp [itemRasters_tag_eq] at hk
termination_by sizeOf item

theorem handle_group_outcome (g : GroupItem) (fc : FrameContext)
    (gc : GlobalContext) (r : StepRes) (h : handle_group g fc gc = .ok r) :
    Outcome fc gc r (specPushedItem (chainOf fc) (.group g))
      (specContItem (chainOf fc) (contChainOf fc) (contSizeOf fc) (.group g))
      (itemFonts (.group g)) (itemRasters (.group g)) := by
  cases g with
  | mk gt clip gframe =>
    rw [handle_group_eq] at h
    cases hpf : process_frame gframe none (fc.push.modifyTop fun s => s.transform_op gt) gc with
    | error e => rw [hpf] at h; cases h
    | ok r2 =>
      rw [hpf] at h
      injection h with h
      subst h
      obtain ⟨hg1, hg2, hg3, hg4, hg5, hg6, hg7, hg8, hg9, hg10, hg11⟩ :=
        process_frame_outcome gframe none (fc.push.modifyTop fun s => s.transform_op gt)
          gc r2 hpf
      cases hcb : clip.bind fun p => builder_finish (convert_path p) with
      | none =>
        simp only [hcb, Option.none_bind] at *
        refine ⟨?_, ?_, ?_, ?_, ?_, ?_, ?_, ?_, ?_, ?_, ?_⟩
        · show (r2.fc.states).tail = fc.states
          rw [hg1]
          rfl
        · simpa using hg2
        · simpa using hg3
        · simpa using hg4
        · simpa using hg5
        · intro f
          simpa using hg6 f
        · intro k
          simpa using hg7 k
        · intro hte
          simpa using hg8 (hte.transform_op gt)
        · intro hte
          simpa using hg9 (hte.transform_op gt)
        · exact hg10
        · exact hg11
      | some pv =>
        simp only [hcb, Option.some_bind, path_transform_k] at *
        refine ⟨?_, ?_, ?_, ?_, ?_, ?_, ?_, ?_, ?_, ?_, ?_⟩
        · show (r2.fc.states).tail = fc.states
          rw [hg1]
          rfl
        · exact Balanced.wrap (.push_clip_path pv _ .k_non_zero) .pop rfl rfl hg2
        · simpa [containersOf, paintTransformsOf] using hg3
        · simpa using hg4
        · simpa using hg5
        · intro f
          simpa [countFontNew, List.countP_cons, countFontNew_append] using hg6 f
        · intro k
          simpa [countDecode, List.countP_cons, countDecode_append] using hg7 k
        · intro hte
          simpa [pushedTransforms, List.filterMap_cons, List.filterMap_append]
            using hg8 (hte.transform_op gt)
        · intro hte tr htr
          refine hg9 (hte.transform_op gt) tr ?_
          simpa [paintTransformsOf, List.filterMap_cons, List.filterMap_append] using htr
        · exact hg10
        · exact hg11
termination_by sizeOf g

end

/-! ## Document-level invariants -/

/-- The fonts of a page list, in traversal order, with multiplicity. -/
def pagesFonts (pages : List Page) : List FontKey :=
  pages.flatMap fun p => frameFonts p.frame

/-- The raster images of a page list, in traversal order. -/
def pagesRasters (pages : List Page) : List RasterKey :=
  pages.flatMap fun p => frameRasters p.frame

/-- The concatenated surface traces of all pages, in page order. -/
def outsEvs (outs : List PageOut) : List Event := outs.flatMap fun o => o.evs

/-- The event trace of a handler result (empty on the fatal path, where
the process dies). -/
def evsOfE (x : Except Err StepRes) : List Event :=
  match x with
  | .ok r => r.evs
  | .error _ => []

/-- The output pages of a successful `pdf()` run. -/
def pdfOuts (doc : Doc) : List PageOut :=
  match pdf doc with
  | .ok outs => outs
  | .error _ => []

theorem run_pages_nil_eq (gc : GlobalContext) : run_pages [] gc = .ok ([], gc) := rfl

theorem run_pages_cons_eq (p : Page) (rest : List Page) (gc : GlobalContext) :
    run_pages (p :: rest) gc =
      (match process_frame p.frame p.fill (FrameContext.new p.frame.size) gc with
       | .error e => .error e
       | .ok r =>
         match run_pages rest r.gc with
         | .error e => .error e
         | .ok (outs, gc2) => .ok (⟨r.fc.annotations, r.evs⟩ :: outs, gc2)) := rfl

theorem pagesFonts_cons (p : Page) (rest : List Page) :
    pagesFonts (p :: rest) = frameFonts p.frame ++ pagesFonts rest := by
  simp [pagesFonts]

theorem pagesRasters_cons (p : Page) (rest : List Page) :
    pagesRasters (p :: rest) = frameRasters p.frame ++ pagesRasters rest := by
  simp [pagesRasters]

theorem outsEvs_cons (o : PageOut) (rest : List PageOut) :
    outsEvs (o :: rest) = o.evs ++ outsEvs rest := by
  simp [outsEvs]

/-- Everything a successful page loop guarantees: per-page trace
properties, document-wide cache evolution and single construction per
resource, and resource health. -/
theorem run_pages_outcome (pages : List Page) (gc : GlobalContext) (outs : List PageOut)
    (gcEnd : GlobalContext) (h : run_pages pages gc = .ok (outs, gcEnd)) :
    List.Forall₂ (fun (o : PageOut) (p : Page) =>
        Balanced o.evs ∧
        pushedTransforms o.evs = specPushedFrame Transform.identity p.fill.isSome p.frame ∧
        containersOf o.evs =
          specContFrame Transform.identity Transform.identity p.frame.size p.fill p.frame ∧
        (∀ tr ∈ paintTransformsOf o.evs, tr.transform_ = tr.transform_chain_)) outs pages ∧
    gcEnd.fonts = internFold gc.fonts (pagesFonts pages) ∧
    gcEnd.images = internFold gc.images (pagesRasters pages) ∧
    (∀ f, countFontNew f (outsEvs outs) =
      if f ∈ pagesFonts pages ∧ f ∉ gc.fonts then 1 else 0) ∧
    (∀ k, countDecode k (outsEvs outs) =
      if k ∈ pagesRasters pages ∧ k ∉ gc.images then 1 else 0) ∧
    (cacheFontsOk gc → ∀ f ∈ pagesFonts pages, f.ok = true) ∧
    (cacheImagesOk gc → ∀ k ∈ pagesRasters pages, k.ok = true) := by
  induction pages generalizing gc outs gcEnd with
  | nil =>
    rw [run_pages_nil_eq] at h
    injection h with h
    injection h with h1 h2
    subst h1
    subst h2
    refine ⟨List.Forall₂.nil, rfl, rfl, ?_, ?_, ?_, ?_⟩
    · intro f; simp [countFontNew, outsEvs, pagesFonts]
    · intro k; simp [countDecode, outsEvs, pagesRasters]
    · intro _ f hf; simp [pagesFonts] at hf
    · intro _ k hk; simp [pagesRasters] at hk
  | cons p rest ih =>
    rw [run_pages_cons_eq] at h
    split at h
    · cases h
    · rename_i rp hpf
      split at h
      · cases h
      · rename_i outs2 gc2 hrest
        injection h with h
        injection h with h1 h2
        subst h1
        subst h2
        obtain ⟨f1, f2, f3, f4, f5, f6, f7, f8, f9, f10, f11⟩ :=
          process_frame_outcome p.frame p.fill (FrameContext.new p.frame.size) gc rp hpf
        obtain ⟨i1, i2, i3, i4, i5, i6, i7⟩ := ih rp.gc outs2 _ hrest
        have htop : TopEq (FrameContext.new p.frame.size) := rfl
        refine ⟨?_, ?_, ?_, ?_, ?_, ?_, ?_⟩
        · exact List.Forall₂.cons ⟨f2, f8 htop, f3, f9 htop⟩ i1
        · rw [i2, f4, pagesFonts_cons, internFold_append]
        · rw [i3, f5, pagesRasters_cons, internFold_append]
        · intro f
          have hi4 := i4 f
          rw [f4] at hi4
          rw [outsEvs_cons, countFontNew_append, f6 f, hi4, pagesFonts_cons]
          simp only [mem_internFold, List.mem_append]
          exact count_combine _ _ _
        · intro k
          have hi5 := i5 k
          rw [f5] at hi5
          rw [outsEvs_cons, countDecode_append, f7 k, hi5, pagesRasters_cons]
          simp only [mem_internFold, List.mem_append]
          exact count_combine _ _ _
        · intro hok f hf
          rw [pagesFonts_cons, List.mem_append] at hf
          rcases hf with hf | hf
          · exact f10 hok f hf
          · refine i6 ?_ f hf
            intro f2 hf2
            rw [f4, mem_internFold] at hf2
            rcases hf2 with hf2 | hf2
            · exact hok f2 hf2
            · exact f10 hok f2 hf2
        · intro hok k hk
          rw [pagesRasters_cons, List.mem_append] at hk
          rcases hk with hk | hk
          · exact f11 hok k hk
          · refine i7 ?_ k hk
            intro k2 hk2
            rw [f5, mem_internFold] at hk2
            rcases hk2 with hk2 | hk2
            · exact hok k2 hk2
            · exact f11 hok k2 hk2

theorem pdf_eq (doc : Doc) :
    pdf doc =
      (match run_pages doc.pages GlobalContext.new with
       | .error e => .error e
       | .ok (outs, _) => if doc.finish_ok then .ok outs else .error .finish_error) := rfl

/-- Unpacking a successful `pdf()` run. -/
theorem pdf_ok_cases (doc : Doc) (h : (pdf doc).isOk = true) :
    ∃ outs gcEnd, run_pages doc.pages GlobalContext.new = .ok (outs, gcEnd) ∧
      doc.finish_ok = true ∧ pdf doc = .ok outs ∧ pdfOuts doc = outs := by
  rw [pdf_eq] at h
  split at h
  · simp [Except.isOk, Except.toBool] at h
  · rename_i outs0 gcE heq
    by_cases hfin : doc.finish_ok = true
    · have hp : pdf doc = .ok outs0 := by
        rw [pdf_eq, heq]
        simp [hfin]
      refine ⟨outs0, gcE, heq, hfin, hp, ?_⟩
      unfold pdfOuts
      rw [hp]
    · rw [if_neg (by simpa using hfin)] at h
      simp [Except.isOk, Except.toBool] at h

/-- A pointwise property on the left list of a `Forall₂`. -/
theorem forall₂_left_mem {α β : Type} {P : α → Prop} :
    ∀ {l1 : List α} {l2 : List β}, List.Forall₂ (fun a _ => P a) l1 l2 →
      ∀ a ∈ l1, P a := by
  intro l1 l2 hf
  induction hf with
  | nil => intro a ha; cases ha
  | cons hr _ ih =>
    intro a ha
    rcases List.mem_cons.mp ha with rfl | ha
    · exact hr
    · exact ih a ha

/-- A paint record of the concatenated traces lives in one page's trace. -/
theorem paint_outsEvs_mem {outs : List PageOut} {tr : Transforms}
    (htr : tr ∈ paintTransformsOf (outsEvs outs)) :
    ∃ o ∈ outs, tr ∈ paintTransformsOf o.evs := by
  induction outs with
  | nil => simp [outsEvs, paintTransformsOf] at htr
  | cons o rest ih =>
    rw [outsEvs_cons, paintTransformsOf_append, List.mem_append] at htr
    rcases htr with htr | htr
    · exact ⟨o, List.mem_cons_self o rest, htr⟩
    · obtain ⟨o2, ho2, htr2⟩ := ih htr
      exact ⟨o2, List.mem_cons_of_mem o ho2, htr2⟩

/-! ## Concrete documents used by the witnesses -/

def exFont : FontKey := ⟨1, true⟩

def exRaster : RasterKey := ⟨2, true⟩

def exText1 : TextItem := ⟨exFont, 2, [⟨5, 1, 0, 0, 1⟩], "a", 7, some ⟨1, 3⟩⟩

def exText2 : TextItem := ⟨exFont, 3, [⟨6, 1, 0, 1, 2⟩], "b", 8, none⟩

def exShape : Shape := ⟨.rect ⟨2, 2⟩, some 1, .nonZero, some ⟨1, 0⟩⟩

def exClip : Path := ⟨[.moveTo ⟨0, 0⟩, .lineTo ⟨1, 0⟩, .closePath]⟩

def exInner : Frame :=
  .mk .soft ⟨2, 2⟩ (.cons ⟨0, 0⟩ (.image (.svg 3 false) ⟨1, 1⟩) (.cons ⟨0, 0⟩ .tag .nil))

def exGroup : GroupItem := .mk ⟨1, 0, 0, 1, 1, 1⟩ (some exClip) exInner

/-- One hard page holding a transformed, clipped group: exercises chain
composition, clip push/pop and container freezing. -/
def wDocGroup : Doc :=
  ⟨[⟨.mk .hard ⟨4, 4⟩ (.cons ⟨2, 2⟩ (.group exGroup) .nil), none⟩], true⟩

/-- One page using the same raster image twice. -/
def wDocRaster : Doc :=
  ⟨[⟨.mk .soft ⟨4, 4⟩ (.cons ⟨0, 0⟩ (.image (.raster exRaster) ⟨1, 1⟩)
      (.cons ⟨1, 0⟩ (.image (.raster exRaster) ⟨1, 1⟩) .nil)), none⟩], true⟩

/-- Two pages whose text items share one font. -/
def wDocFont : Doc :=
  ⟨[⟨.mk .soft ⟨4, 4⟩ (.cons ⟨0, 0⟩ (.text exText1) .nil), none⟩,
    ⟨.mk .soft ⟨3, 3⟩ (.cons ⟨0, 0⟩ (.text exText2) .nil), none⟩], true⟩

/-- A text item whose stroke has thickness `0`. -/
def zeroStroke : FixedStroke := ⟨0, 0⟩

def zeroStrokeText : TextItem := ⟨⟨4, true⟩, 12, [⟨1, 1, 0, 0, 1⟩], "x", 5, some zeroStroke⟩

/-- A shape whose stroke has thickness `0`. -/
def zeroStrokeShape : Shape := ⟨.rect ⟨2, 2⟩, some 1, .nonZero, some zeroStroke⟩

/-! ## The claims -/

/-- C1: for every input document and every frame item drawn, the
transform pushed on the surface when the item is emitted equals the
composition of every ancestor group transform with the translations to
the origins of the item and its ancestors, accumulated in pre-order by
`process_frame` (push a cloned state, pre-concatenate the translation to
the item's point, dispatch, pop); page chains start at the identity. -/
theorem claim_C1_pushed_transforms (doc : Doc) (h : (pdf doc).isOk = true) :
    List.Forall₂ (fun (o : PageOut) (p : Page) =>
      pushedTransforms o.evs = specPushedFrame Transform.identity p.fill.isSome p.frame)
      (pdfOuts doc) doc.pages := by
  obtain ⟨outs, gcEnd, hrp, _, _, hout⟩ := pdf_ok_cases doc h
  rw [hout]
  exact ((run_pages_outcome _ _ _ _ hrp).1).imp fun a b hab => hab.2.1

set_option maxHeartbeats 1000000 in
theorem claim_C1_witness :
    (pdf wDocGroup).isOk = true ∧
    List.Forall₂ (fun (o : PageOut) (p : Page) =>
      pushedTransforms o.evs = specPushedFrame Transform.identity p.fill.isSome p.frame)
      (pdfOuts wDocGroup) wDocGroup.pages :=
  ⟨by decide, claim_C1_pushed_transforms wDocGroup (by decide)⟩

/-- C2: every handler leaves the state-stack exactly as on entry, every
surface push it performs is matched by exactly one pop (the emitted trace
is balanced and never pops below the entry depth), a page traversal
returns the stack to exactly the single seeded state, and every page of a
successful `pdf()` run has a balanced surface trace. -/
theorem claim_C2_push_pop_balance :
    (∀ sh fc gc, (handle_shape sh fc gc).fc.states = fc.states ∧
      Balanced (handle_shape sh fc gc).evs) ∧
    (∀ t fc gc r, handle_text t fc gc = .ok r → r.fc.states = fc.states ∧ Balanced r.evs) ∧
    (∀ img size fc gc r, handle_image img size fc gc = .ok r →
      r.fc.states = fc.states ∧ Balanced r.evs) ∧
    (∀ g fc gc r, handle_group g fc gc = .ok r → r.fc.states = fc.states ∧ Balanced r.evs) ∧
    (∀ frame fill fc gc r, process_frame frame fill fc gc = .ok r →
      r.fc.states = fc.states ∧ Balanced r.evs) ∧
    (∀ frame fill size gc r, process_frame frame fill (FrameContext.new size) gc = .ok r →
      r.fc.states = [State.new size Transform.identity Transform.identity]) ∧
    (∀ doc, (pdf doc).isOk = true →
      List.Forall₂ (fun (o : PageOut) (_ : Page) => Balanced o.evs) (pdfOuts doc) doc.pages) := by
  refine ⟨?_, ?_, ?_, ?_, ?_, ?_, ?_⟩
  · intro sh fc gc
    have hb := handle_shape_outcome sh fc gc
    exact ⟨hb.1, hb.2.1⟩
  · intro t fc gc r h
    have hb := handle_text_outcome t fc gc r h
    exact ⟨hb.1, hb.2.1⟩
  · intro img size fc gc r h
    have hb := handle_image_outcome img size fc gc r h
    exact ⟨hb.1, hb.2.1⟩
  · intro g fc gc r h
    have hb := handle_group_outcome g fc gc r h
    exact ⟨hb.1, hb.2.1⟩
  · intro frame fill fc gc r h
    have hb := process_frame_outcome frame fill fc gc r h
    exact ⟨hb.1, hb.2.1⟩
  · intro frame fill size gc r h
    have hb := process_frame_outcome frame fill (FrameContext.new size) gc r h
    rw [hb.1]
    rfl
  · intro doc h
    obtain ⟨outs, gcEnd, hrp, _, _, hout⟩ := pdf_ok_cases doc h
    rw [hout]
    exact ((run_pages_outcome _ _ _ _ hrp).1).imp fun a b hab => hab.1

set_option maxHeartbeats 1000000 in
theorem claim_C2_witness :
    (pdf wDocGroup).isOk = true ∧
    List.Forall₂ (fun (o : PageOut) (_ : Page) => Balanced o.evs)
      (pdfOuts wDocGroup) wDocGroup.pages :=
  ⟨by decide, claim_C2_push_pop_balance.2.2.2.2.2.2 wDocGroup (by decide)⟩

/-- C3: a raster image that appears anywhere in the document is decoded
exactly once across the whole run; the decode result is memoized
per document, so later uses hit the cache. -/
theorem claim_C3_raster_decoded_once (doc : Doc) (k : RasterKey)
    (h : (pdf doc).isOk = true) :
    countDecode k (outsEvs (pdfOuts doc)) = if k ∈ docRasters doc then 1 else 0 := by
  obtain ⟨outs, gcEnd, hrp, _, _, hout⟩ := pdf_ok_cases doc h
  rw [hout]
  have hc := (run_pages_outcome _ _ _ _ hrp).2.2.2.2.1 k
  rw [hc]
  simp [docRasters, pagesRasters, GlobalContext.new]

set_option maxHeartbeats 1000000 in
theorem claim_C3_witness :
    (pdf wDocRaster).isOk = true ∧
    countDecode exRaster (outsEvs (pdfOuts wDocRaster)) =
      if exRaster ∈ docRasters wDocRaster then 1 else 0 :=
  ⟨by decide, claim_C3_raster_decoded_once wDocRaster exRaster (by decide)⟩

/-- C4: a font used by any number of text items across all pages causes
exactly one `Font::new` call; the first `handle_text` for that font
constructs and stores the backend font and every later use hits the
cache. -/
theorem claim_C4_font_new_once (doc : Doc) (f : FontKey) (h : (pdf doc).isOk = true) :
    countFontNew f (outsEvs (pdfOuts doc)) = if f ∈ docFonts doc then 1 else 0 := by
  obtain ⟨outs, gcEnd, hrp, _, _, hout⟩ := pdf_ok_cases doc h
  rw [hout]
  have hc := (run_pages_outcome _ _ _ _ hrp).2.2.2.1 f
  rw [hc]
  simp [docFonts, pagesFonts, GlobalContext.new]

set_option maxHeartbeats 1000000 in
theorem claim_C4_witness :
    (pdf wDocFont).isOk = true ∧
    countFontNew exFont (outsEvs (pdfOuts wDocFont)) =
      if exFont ∈ docFonts wDocFont then 1 else 0 :=
  ⟨by decide, claim_C4_font_new_once wDocFont exFont (by decide)⟩

/-- C5: for every hard frame entered by `process_frame`, the container
chain is frozen to the transform chain at that frame and the container
size to the frame's size, and these are what `transforms()` reports for
every paint call in the subtree until a deeper hard frame overrides them;
soft frames leave both unchanged (this is exactly how `specContFrame`
computes the expected list). -/
theorem claim_C5_hard_frame_container (doc : Doc) (h : (pdf doc).isOk = true) :
    List.Forall₂ (fun (o : PageOut) (p : Page) =>
      containersOf o.evs =
        specContFrame Transform.identity Transform.identity p.frame.size p.fill p.frame)
      (pdfOuts doc) doc.pages := by
  obtain ⟨outs, gcEnd, hrp, _, _, hout⟩ := pdf_ok_cases doc h
  rw [hout]
  exact ((run_pages_outcome _ _ _ _ hrp).1).imp fun a b hab => hab.2.2.1

set_option maxHeartbeats 1000000 in
theorem claim_C5_witness :
    (pdf wDocGroup).isOk = true ∧
    List.Forall₂ (fun (o : PageOut) (p : Page) =>
      containersOf o.evs =
        specContFrame Transform.identity Transform.identity p.frame.size p.fill p.frame)
      (pdfOuts wDocGroup) wDocGroup.pages :=
  ⟨by decide, claim_C5_hard_frame_container wDocGroup (by decide)⟩

/-- C6: the claim fails on the code for text. A `Text` item with a stroke
of thickness `0` still emits a `stroke_glyphs` call (`handle_text` never
looks at the thickness), while `handle_shape` does suppress a
non-positive-thickness stroke on the very same stroke value. -/
theorem claim_C6_zero_stroke_eval :
    zeroStrokeText.stroke = some zeroStroke ∧
    zeroStroke.thickness ≤ 0 ∧
    (handle_text zeroStrokeText (FrameContext.new ⟨10, 10⟩) GlobalContext.new).isOk = true ∧
    countStrokeGlyphs
      (evsOfE (handle_text zeroStrokeText (FrameContext.new ⟨10, 10⟩) GlobalContext.new)) = 1 ∧
    zeroStrokeShape.stroke = some zeroStroke ∧
    countStrokePath
      ((handle_shape zeroStrokeShape (FrameContext.new ⟨10, 10⟩) GlobalContext.new).evs) = 0 := by
  refine ⟨rfl, le_refl 0, ?_, ?_, rfl, ?_⟩ <;> decide

/-- C7: `write_link` maps the four corners of a rect of the link's size
at the origin through `state.transform`, takes the axis-aligned bounding
box as the annotation rectangle, and builds the target: a URL becomes a
link action, `Position(page, point)` becomes an Xyz destination with the
page index decremented by one, and `Location` returns without emitting;
emitted annotations are appended to the per-page buffer. -/
theorem claim_C7_write_link (fc : FrameContext) (size : Size) :
    (∀ u, write_link fc (.url u) size =
      .ok { fc with annotations :=
        fc.annotations ++ [⟨linkRectVal fc.state size, .action_link u⟩] }) ∧
    (∀ page point, write_link fc (.position page point) size =
      .ok { fc with annotations :=
        fc.annotations ++ [⟨linkRectVal fc.state size, .destination_xyz (page - 1) point⟩] }) ∧
    (∀ loc, write_link fc (.location loc) size = .ok fc) := by
  refine ⟨?_, ?_, ?_⟩
  · intro u
    unfold write_link
    rw [linkRect_some]
  · intro page point
    unfold write_link
    rw [linkRect_some]
  · intro loc
    unfold write_link
    rw [linkRect_some]

/-- C8: `handle_text` wraps each glyph as a backend glyph with
`y_advance = 0` and `y_offset = 0` in normalized units, pushes the
transform chain, emits `fill_glyphs` at the origin with the fill built
from `Transforms` with item size zero, emits `stroke_glyphs` exactly when
a stroke is present, and pops the transform (after interning the font). -/
theorem claim_C8_handle_text (t : TextItem) (fc : FrameContext) (gc : GlobalContext)
    (g : Glyph) (hte : TopEq fc) (hok : (handle_text t fc gc).isOk = true) :
    evsOfE (handle_text t fc gc) =
      (if t.font ∈ gc.fonts then [] else [Event.font_new t.font]) ++
      [Event.push_transform (fc.state).transform_chain,
       Event.fill_glyphs Point.zero ⟨t.fill, .nonZero, true, fc.state.transforms Size.zero⟩
         (t.glyphs.map pdfGlyph) t.font t.text t.size .normalized false] ++
      (match t.stroke with
       | some s =>
         [Event.stroke_glyphs Point.zero ⟨s, true, fc.state.transforms Size.zero⟩
            (t.glyphs.map pdfGlyph) t.font t.text t.size .normalized true]
       | none => []) ++ [Event.pop] ∧
    pdfGlyph g = ⟨g.id, g.range_start, g.range_end, g.x_advance, g.x_offset, 0, 0⟩ := by
  refine ⟨?_, rfl⟩
  unfold TopEq at hte
  unfold handle_text evsOfE at *
  cases hfi : font_intern gc t.font with
  | error e =>
    rw [hfi] at hok
    simp [Except.isOk, Except.toBool] at hok
  | ok pr =>
    obtain ⟨gc2, fontEvs⟩ := pr
    rcases font_intern_cases hfi with ⟨hmem, _, rfl⟩ | ⟨hmem, _, _, rfl⟩ <;>
      simp [hfi, hmem, hte, textStrokeEvs]

theorem claim_C8_witness :
    TopEq (FrameContext.new ⟨4, 4⟩) ∧
    (handle_text exText1 (FrameContext.new ⟨4, 4⟩) GlobalContext.new).isOk = true ∧
    (evsOfE (handle_text exText1 (FrameContext.new ⟨4, 4⟩) GlobalContext.new) =
      (if exText1.font ∈ GlobalContext.new.fonts then [] else [Event.font_new exText1.font]) ++
      [Event.push_transform ((FrameContext.new ⟨4, 4⟩).state).transform_chain,
       Event.fill_glyphs Point.zero
         ⟨exText1.fill, .nonZero, true, (FrameContext.new ⟨4, 4⟩).state.transforms Size.zero⟩
         (exText1.glyphs.map pdfGlyph) exText1.font exText1.text exText1.size .normalized false] ++
      (match exText1.stroke with
       | some s =>
         [Event.stroke_glyphs Point.zero
            ⟨s, true, (FrameContext.new ⟨4, 4⟩).state.transforms Size.zero⟩
            (exText1.glyphs.map pdfGlyph) exText1.font exText1.text exText1.size .normalized true]
       | none => []) ++ [Event.pop] ∧
      pdfGlyph ⟨5, 1, 0, 0, 1⟩ =
        ⟨(5 : Nat), (0 : Nat), (1 : Nat), (1 : ℤ), (0 : ℤ), 0, 0⟩) :=
  ⟨rfl, by decide,
    claim_C8_handle_text exText1 (FrameContext.new ⟨4, 4⟩) GlobalContext.new
      ⟨5, 1, 0, 0, 1⟩ rfl (by decide)⟩

/-- C9: resource construction failures and backend finalize failure are
fatal: a successful `pdf()` run certifies that the backend finalize
succeeded and that every font and every raster image the document uses
was constructed successfully — any such failure propagates out of `pdf()`
as an error instead of being locally recovered. -/
theorem claim_C9_fatal_errors (doc : Doc) (h : (pdf doc).isOk = true) :
    doc.finish_ok = true ∧
    List.Forall (fun f : FontKey => f.ok = true) (docFonts doc) ∧
    List.Forall (fun k : RasterKey => k.ok = true) (docRasters doc) := by
  obtain ⟨outs, gcEnd, hrp, hfin, _, _⟩ := pdf_ok_cases doc h
  have hr := run_pages_outcome _ _ _ _ hrp
  refine ⟨hfin, ?_, ?_⟩
  · rw [List.forall_iff_forall_mem]
    intro f hf
    refine hr.2.2.2.2.2.1 ?_ f ?_
    · intro f2 hf2
      simp [GlobalContext.new] at hf2
    · simpa [docFonts, pagesFonts] using hf
  · rw [List.forall_iff_forall_mem]
    intro k hk
    refine hr.2.2.2.2.2.2 ?_ k ?_
    · intro k2 hk2
      simp [GlobalContext.new] at hk2
    · simpa [docRasters, pagesRasters] using hk

set_option maxHeartbeats 1000000 in
theorem claim_C9_witness :
    (pdf wDocFont).isOk = true ∧
    (wDocFont.finish_ok = true ∧
     List.Forall (fun f : FontKey => f.ok = true) (docFonts wDocFont) ∧
     List.Forall (fun k : RasterKey => k.ok = true) (docRasters wDocFont)) :=
  ⟨by decide, claim_C9_fatal_errors wDocFont (by decide)⟩

/-- C10: for every state reachable during a traversal, `transform` equals
`transform_chain`: the page-root state starts with both equal to the
identity, `State::transform` preserves the agreement, and in every
successful run every `Transforms` record the handlers built reports an
item transform equal to the full chain. -/
theorem claim_C10_transform_equals_chain (size : Size) (s : State) (t : Transform)
    (doc : Doc) (hs : s.transform = s.transform_chain) (h : (pdf doc).isOk = true) :
    TopEq (FrameContext.new size) ∧
    (s.transform_op t).transform = (s.transform_op t).transform_chain ∧
    List.Forall (fun tr : Transforms => tr.transform_ = tr.transform_chain_)
      (paintTransformsOf (outsEvs (pdfOuts doc))) := by
  refine ⟨rfl, ?_, ?_⟩
  · unfold State.transform_op
    simp only
    rw [hs]
  · obtain ⟨outs, gcEnd, hrp, _, _, hout⟩ := pdf_ok_cases doc h
    rw [hout, List.forall_iff_forall_mem]
    intro tr htr
    obtain ⟨o, ho, htro⟩ := paint_outsEvs_mem htr
    exact forall₂_left_mem
      ((run_pages_outcome _ _ _ _ hrp).1.imp fun a b hab => hab.2.2.2) o ho tr htro

set_option maxHeartbeats 1000000 in
theorem claim_C10_witness :
    defaultState.transform = defaultState.transform_chain ∧
    (pdf wDocGroup).isOk = true ∧
    (TopEq (FrameContext.new ⟨4, 4⟩) ∧
     (defaultState.transform_op Transform.identity).transform =
       (defaultState.transform_op Transform.identity).transform_chain ∧
     List.Forall (fun tr : Transforms => tr.transform_ = tr.transform_chain_)
       (paintTransformsOf (outsEvs (pdfOuts wDocGroup)))) :=
  ⟨rfl, by decide,
    claim_C10_transform_equals_chain ⟨4, 4⟩ defaultState Transform.identity wDocGroup rfl
      (by decide)⟩

end TypstPdf
